import Mathlib

/-!
# File Vault Lite

A shallow embedding of `main.go` (the whole program: `humanReadableSize`,
`ListFiles`, `BasicAuthMiddleware`, `UploadHandler`, `DownloadHandler` and the
routes registered by `main`) together with the properties of its request
handling surface.

The handlers are translated statement by statement.  What they call in the Go
standard library is modelled next to them:

* `fmt` with the verb `%.2f`: a decimal rendering that is correctly rounded,
  ties to even, as `strconv` produces it;
* `float64(i)` for an `int64`: nearest double, ties to even; the divisions by
  `1024`, `1024*1024`, `1024*1024*1024` are exact in binary floating point, so a
  double is held as a signed fraction `num / den`;
* `http.ResponseWriter`: the status line is fixed by the first `WriteHeader` or,
  implicitly with 200, by the first `Write`; later `WriteHeader` calls have no
  effect and the header map is sent as it was when the status line was fixed;
* the filesystem: a tree of regular files and directories, addressed by the
  paths that `filepath.Join` yields, with a clock for modification times and a
  number of free bytes;
* `filepath.Walk`, `filepath.Join`/`Clean`, `slices.SortFunc`.

Conventions of the model: a file's content is a string with one character per
byte; a regular file can be read and written by the server process, and what
can fail on the filesystem is a path that is missing, that runs through a
regular file or that names a directory, a directory that cannot be read, and
running out of space; the tree does not change while a request is served; times
are rendered in UTC; header names are compared as `main.go` spells them.
-/

namespace FileVault

/-! ## Constants of `main.go` -/

def uploadDir : String := "./uploads"

def maxFileSize : Nat := 1000 * 1024 * 1024

/-! ## `fmt`: decimal rendering -/

/-- The character of a decimal digit. -/
def digitChar : Nat → Char
  | 0 => '0' | 1 => '1' | 2 => '2' | 3 => '3' | 4 => '4'
  | 5 => '5' | 6 => '6' | 7 => '7' | 8 => '8' | _ => '9'

/-- The value of a decimal digit character (0 for any other character). -/
def digitVal (c : Char) : Nat := c.toNat - 48

/-- Is the character one of `0` .. `9`. -/
def isDigit (c : Char) : Bool := decide (48 ≤ c.toNat) && decide (c.toNat ≤ 57)

/-- Decimal digits of `n`, most significant first; `fuel` bounds the number of digits. -/
def formatNatAux : Nat → Nat → List Char
  | 0, _ => []
  | fuel + 1, n =>
    if n < 10 then [digitChar n] else formatNatAux fuel (n / 10) ++ [digitChar (n % 10)]

/-- The verb `%d` on a natural number. -/
def formatNat (n : Nat) : String := String.mk (formatNatAux (n + 1) n)

/-- The number a string of decimal digits denotes. -/
def decimalValue (s : String) : Nat := s.data.foldl (fun acc c => acc * 10 + digitVal c) 0

/-- Two decimal digits, zero padded. -/
def pad2 (n : Nat) : String := String.mk [digitChar (n / 10 % 10), digitChar (n % 10)]

/-- Four decimal digits at least, zero padded. -/
def pad4 (n : Nat) : String :=
  if n < 10 then "000" ++ formatNat n
  else if n < 100 then "00" ++ formatNat n
  else if n < 1000 then "0" ++ formatNat n
  else formatNat n

/-! ## `float64` values that arise from an `int64` -/

/-- A double of the form `± num / den`, where `den` is a power of two. -/
structure Float64 where
  neg : Bool
  num : Nat
  den : Nat
  deriving DecidableEq, Repr

/-- How many low bits a magnitude has beyond the 53 a double's significand holds
(an `int64` magnitude is at most `2^63`, so at most 11). -/
def excessBits : Nat → Nat → Nat
  | 0, _ => 0
  | fuel + 1, n => if n < 2 ^ 53 then 0 else 1 + excessBits fuel (n / 2)

/-- The magnitude of `float64(i)`: `n` rounded to 53 significant bits, ties to even. -/
def roundToFloat64 (n : Nat) : Nat :=
  let e := excessBits 11 n
  let q := n / 2 ^ e
  let r := n % 2 ^ e
  if 2 ^ e < 2 * r ∨ (2 * r = 2 ^ e ∧ q % 2 = 1) then (q + 1) * 2 ^ e else q * 2 ^ e

/-- The conversion `float64(i)` of an `int64`. -/
def Float64.ofInt64 (i : Int) : Float64 :=
  { neg := decide (i < 0), num := roundToFloat64 i.natAbs, den := 1 }

/-- Division of a double by a power of two `k` (exact: only the exponent changes). -/
def Float64.div (x : Float64) (k : Nat) : Float64 :=
  { neg := x.neg, num := x.num, den := x.den * k }

/-- The fraction `num / den` in hundredths, rounded to nearest, ties to even. -/
def hundredths (num den : Nat) : Nat :=
  let q := num * 100 / den
  let r := num * 100 % den
  if den < 2 * r ∨ (2 * r = den ∧ q % 2 = 1) then q + 1 else q

/-- The verb `%.2f`. -/
def formatFloat2 (x : Float64) : String :=
  (if x.neg then "-" else "") ++ formatNat (hundredths x.num x.den / 100) ++ "."
    ++ pad2 (hundredths x.num x.den % 100)

/-- Models `fmt.Sprintf("%.2f %s", size, unit)`. -/
def Sprintf_2f_s (size : Float64) (unit : String) : String :=
  formatFloat2 size ++ " " ++ unit

/-! ## `humanReadableSize` -/

/-- The function `humanReadableSize` of `main.go`. -/
def humanReadableSize (i : Int) : String :=
  let (unit, size) :=
    if i ≥ 1024 * 1024 * 1024 then
      ("GB", (Float64.ofInt64 i).div (1024 * 1024 * 1024))
    else if i ≥ 1024 * 1024 then
      ("MB", (Float64.ofInt64 i).div (1024 * 1024))
    else if i ≥ 1024 then
      ("KB", (Float64.ofInt64 i).div 1024)
    else
      ("B", Float64.ofInt64 i)
  Sprintf_2f_s size unit

/-- The units of the size formatter, largest first, with their size in bytes. -/
def unitsDescending : List (String × Nat) :=
  [("GB", 1024 ^ 3), ("MB", 1024 ^ 2), ("KB", 1024)]

/-- The unit the specification selects: the largest of GB, MB, KB in which the
byte count is at least 1, else B. -/
def specUnit (b : Nat) : String × Nat :=
  (unitsDescending.find? (fun u => decide (u.2 ≤ b))).getD ("B", 1)

/-! ## `time.Time` -/

/-- An instant, in nanoseconds since the Unix epoch. -/
structure Time where
  unixNano : Int
  deriving DecidableEq, Repr

/-- Models `t.After(u)`. -/
def Time.After (t u : Time) : Bool := decide (t.unixNano > u.unixNano)

/-- Models `t.Before(u)`. -/
def Time.Before (t u : Time) : Bool := decide (t.unixNano < u.unixNano)

/-- Year, month and day of the given day number (days since 1970-01-01), in the
proleptic Gregorian calendar. -/
def civilFromDays (days : Int) : Int × Nat × Nat :=
  let z := days + 719468
  let era := z / 146097
  let doe := (z % 146097).toNat
  let yoe := (doe - doe / 1460 + doe / 36524 - doe / 146096) / 365
  let doy := doe - (365 * yoe + yoe / 4 - yoe / 100)
  let mp := (5 * doy + 2) / 153
  let d := doy - (153 * mp + 2) / 5 + 1
  let m := if mp < 10 then mp + 3 else mp - 9
  let y := (yoe : Int) + era * 400 + (if m ≤ 2 then 1 else 0)
  (y, m, d)

/-- Models `t.Format("2006-01-02 15:04:05")`, the zone of the process being UTC. -/
def Time.Format (t : Time) : String :=
  let secs := t.unixNano / 1000000000
  let (y, m, d) := civilFromDays (secs / 86400)
  let sod := (secs % 86400).toNat
  (if y < 0 then "-" else "") ++ pad4 y.natAbs ++ "-" ++ pad2 m ++ "-" ++ pad2 d ++ " "
    ++ pad2 (sod / 3600) ++ ":" ++ pad2 (sod / 60 % 60) ++ ":" ++ pad2 (sod % 60)

/-! ## Errors -/

/-- The error values the program meets: the two sentinels of `filepath`, an
`fs.PathError`, and an error made with `errors.New`. -/
inductive Error
  | SkipDir
  | SkipAll
  | PathError (Op Path Err : String)
  | New (msg : String)
  deriving DecidableEq, Repr

/-- The method `Error()`, which the verb `%v` prints. -/
def Error.String : Error → String
  | .SkipDir => "skip this directory"
  | .SkipAll => "skip everything and stop the walk"
  | .PathError op path err => op ++ " " ++ path ++ ": " ++ err
  | .New msg => msg

def ENOENT : String := "no such file or directory"
def ENOTDIR : String := "not a directory"
def EISDIR : String := "is a directory"
def ENOSPC : String := "no space left on device"

/-! ## `path/filepath`: `Clean` and `Join` -/

/-- The elements of a path, split at every `/`. -/
def splitSlash : List Char → List (List Char)
  | [] => [[]]
  | c :: cs =>
    match splitSlash cs with
    | [] => if c = '/' then [[], []] else [[c]]
    | w :: ws => if c = '/' then [] :: w :: ws else (c :: w) :: ws

/-- The elements of a path as strings. -/
def pathElems (path : String) : List String := (splitSlash path.data).map String.mk

/-- One element of a path in `Clean`; `out` is the cleaned path so far, last
element first: empty and `.` elements are dropped, `..` removes the element
before it, and is kept at the start of a path that is not rooted. -/
def cleanStep (rooted : Bool) (out : List String) (c : String) : List String :=
  if c = "" ∨ c = "." then out
  else if c = ".." then
    match out with
    | [] => if rooted then [] else [".."]
    | top :: below => if top = ".." then ".." :: top :: below else below
  else c :: out

/-- Models `filepath.Clean` (separator `/`). -/
def Clean (path : String) : String :=
  if path = "" then "."
  else
    let rooted := decide (path.data.head? = some '/')
    let out := ((pathElems path).foldl (cleanStep rooted) []).reverse
    let s := (if rooted then "/" else "") ++ "/".intercalate out
    if s = "" then "." else s

/-- Models `filepath.Join`: the non-empty elements joined by `/`, then cleaned. -/
def Join (elem : List String) : String :=
  match elem.filter (fun e => e ≠ "") with
  | [] => ""
  | es => Clean ("/".intercalate es)

/-! ## The filesystem -/

/-- The entries of a directory, in the order in which reading the directory
reports them (`filepath.Walk` reads names in ascending order).  A directory
entry carries the error, if any, that opening it for reading reports. -/
inductive Forest
  | nil
  | file (name : String) (data : String) (modTime : Time) (rest : Forest)
  | dir (name : String) (modTime : Time) (listErr : Option String) (children : Forest)
      (rest : Forest)
  deriving DecidableEq, Repr

/-- What a path names. -/
inductive Node
  | file (data : String) (modTime : Time)
  | dir (modTime : Time) (listErr : Option String) (children : Forest)
  deriving DecidableEq, Repr

/-- The state of the machine the server runs on: the directory tree from `/`,
the working directory of the process, the clock, and the free space in bytes. -/
structure FS where
  root : Forest
  cwd : List String
  now : Time
  free : Nat
  deriving DecidableEq, Repr

/-- Byte-wise order of names. -/
def nameLt : List Char → List Char → Bool
  | [], [] => false
  | [], _ :: _ => true
  | _ :: _, [] => false
  | a :: as, b :: bs =>
    if a.toNat < b.toNat then true else if b.toNat < a.toNat then false else nameLt as bs

/-- Does the directory have an entry of that name. -/
def Forest.has : Forest → String → Bool
  | .nil, _ => false
  | .file n _ _ rest, c => decide (n = c) || rest.has c
  | .dir n _ _ _ rest, c => decide (n = c) || rest.has c

/-- The node at a path given by its elements, from this directory. -/
def Forest.lookup : Forest → List String → Except String Node
  | f, [] => .ok (.dir ⟨0⟩ none f)
  | .nil, _ :: _ => .error ENOENT
  | .file n d m rest, c :: cs =>
    if n = c then (if cs = [] then .ok (.file d m) else .error ENOTDIR)
    else rest.lookup (c :: cs)
  | .dir n m e ch rest, c :: cs =>
    if n = c then (if cs = [] then .ok (.dir m e ch) else ch.lookup cs)
    else rest.lookup (c :: cs)

/-- Opening a path with `O_WRONLY|O_CREATE|O_TRUNC`: an existing regular file is
emptied, a missing one is created (at its place in the order of names, and its
directory is stamped), a directory or a path through a missing or non-directory
element is an error. -/
def Forest.create (now : Time) : Forest → List String → Except String Forest
  | _, [] => .error EISDIR
  | .nil, [c] => .ok (.file c "" now .nil)
  | .nil, _ :: _ :: _ => .error ENOENT
  | .file n d m rest, c :: cs =>
    if n = c then (if cs = [] then .ok (.file n "" now rest) else .error ENOTDIR)
    else if cs = [] ∧ nameLt c.data n.data = true ∧ rest.has c = false then
      .ok (.file c "" now (.file n d m rest))
    else (rest.create now (c :: cs)).map (fun rest1 => .file n d m rest1)
  | .dir n m e ch rest, c :: cs =>
    if n = c then
      (match cs with
       | [] => .error EISDIR
       | c1 :: cs1 =>
         (ch.create now (c1 :: cs1)).map (fun ch1 =>
           .dir n (if cs1 = [] ∧ ch.has c1 = false then now else m) e ch1 rest))
    else if cs = [] ∧ nameLt c.data n.data = true ∧ rest.has c = false then
      .ok (.file c "" now (.dir n m e ch rest))
    else (rest.create now (c :: cs)).map (fun rest1 => .dir n m e ch rest1)

/-- Writing `data` at the end of the regular file at a path. -/
def Forest.append (now : Time) (data : String) : Forest → List String → Forest
  | f, [] => f
  | .nil, _ :: _ => .nil
  | .file n d m rest, c :: cs =>
    if n = c then (if cs = [] then .file n (d ++ data) now rest else .file n d m rest)
    else .file n d m (rest.append now data (c :: cs))
  | .dir n m e ch rest, c :: cs =>
    if n = c then .dir n m e (ch.append now data cs) rest
    else .dir n m e ch (rest.append now data (c :: cs))

/-- One element of a path the kernel resolves; `dir` is the directory reached so far. -/
def resolveStep (dir : List String) (c : String) : List String :=
  if c = "" ∨ c = "." then dir
  else if c = ".." then dir.dropLast
  else dir ++ [c]

/-- The absolute path, as elements from `/`, that a path names in this state. -/
def FS.resolve (fs : FS) (path : String) : List String :=
  (pathElems path).foldl resolveStep (if path.data.head? = some '/' then [] else fs.cwd)

/-- An open file: the path it was opened with and where that is. -/
structure File where
  name : String
  loc : List String
  deriving DecidableEq, Repr

/-- Models `os.Open`. -/
def FS.Open (fs : FS) (name : String) : Except Error File :=
  match fs.root.lookup (fs.resolve name) with
  | .error e => .error (.PathError "open" name e)
  | .ok (.dir _ (some e) _) => .error (.PathError "open" name e)
  | .ok _ => .ok { name := name, loc := fs.resolve name }

/-- Models `os.OpenFile(name, os.O_WRONLY|os.O_CREATE|os.O_TRUNC, 0666)`. -/
def FS.OpenFile (fs : FS) (name : String) : Except Error (File × FS) :=
  match fs.root.create fs.now (fs.resolve name) with
  | .error e => .error (.PathError "open" name e)
  | .ok root1 =>
    let old := match fs.root.lookup (fs.resolve name) with
      | .ok (.file d _) => d.length
      | _ => 0
    .ok ({ name := name, loc := fs.resolve name }, { fs with root := root1, free := fs.free + old })

/-- Reading an open file to its end. -/
def FS.ReadAll (fs : FS) (f : File) : Except Error String :=
  match fs.root.lookup f.loc with
  | .ok (.file d _) => .ok d
  | .ok (.dir _ _ _) => .error (.PathError "read" f.name EISDIR)
  | .error e => .error (.PathError "read" f.name e)

/-- Models `io.Copy(f, src)` into an open regular file: the bytes for which there is
room are written; when some are left over the copy fails. -/
def FS.CopyTo (fs : FS) (f : File) (src : String) : FS × Option Error :=
  if src.length ≤ fs.free then
    ({ fs with root := fs.root.append fs.now src f.loc, free := fs.free - src.length }, none)
  else
    ({ fs with root := fs.root.append fs.now (String.mk (src.data.take fs.free)) f.loc, free := 0 },
      some (.PathError "write" f.name ENOSPC))

/-! ## `os.FileInfo` and `filepath.Walk` -/

/-- What `os.FileInfo` reports. -/
structure FileInfo where
  name : String
  size : Int
  modTime : Time
  isDir : Bool
  deriving DecidableEq, Repr

def FileInfo.Name (info : FileInfo) : String := info.name
def FileInfo.Size (info : FileInfo) : Int := info.size
def FileInfo.ModTime (info : FileInfo) : Time := info.modTime
def FileInfo.IsDir (info : FileInfo) : Bool := info.isDir

/-- The size a directory reports (that of one block on common filesystems). -/
def dirSize : Int := 4096

/-- The `FileInfo` of a node under a name. -/
def Node.info (name : String) : Node → FileInfo
  | .file d m => { name := name, size := d.length, modTime := m, isDir := false }
  | .dir m _ _ => { name := name, size := dirSize, modTime := m, isDir := true }

/-- The last element of a path. -/
def baseName (path : String) : String :=
  match ((pathElems path).filter (fun e => e ≠ "")).getLast? with
  | some e => e
  | none => if path = "" then "." else "/"

/-- Models `os.Lstat`. -/
def FS.Lstat (fs : FS) (name : String) : Except Error (FileInfo × Node) :=
  match fs.root.lookup (fs.resolve name) with
  | .error e => .error (.PathError "lstat" name e)
  | .ok node => .ok (node.info (baseName name), node)

/-- A `filepath.WalkFunc`, acting on the state `σ` its closure captures. -/
abbrev WalkFunc (σ : Type) := String → Option FileInfo → Option Error → σ → Option Error × σ

/-- The loop of `filepath.walk` over the names of a directory `path`, together
with the recursive calls of `walk` on each of them: a regular file is handed to
`walkFn`; a directory is handed to `walkFn` with the error of reading it, and is
descended into when neither that error nor the result of `walkFn` is set; the
loop stops at the first error other than a directory's `SkipDir`. -/
def walkNames {σ : Type} (walkFn : WalkFunc σ) (path : String) : Forest → σ → Option Error × σ
  | .nil, s => (none, s)
  | .file n d m rest, s =>
    let filename := Join [path, n]
    match walkFn filename (some ((Node.file d m).info n)) none s with
    | (some err, s1) => (some err, s1)
    | (none, s1) => walkNames walkFn path rest s1
  | .dir n m e ch rest, s =>
    let filename := Join [path, n]
    let err := e.map (fun msg => Error.PathError "open" filename msg)
    match walkFn filename (some ((Node.dir m e ch).info n)) err s with
    | (some err1, s1) =>
      if err1 = Error.SkipDir then walkNames walkFn path rest s1 else (some err1, s1)
    | (none, s1) =>
      if err.isSome then walkNames walkFn path rest s1
      else
        match walkNames walkFn filename ch s1 with
        | (some err2, s2) =>
          if err2 = Error.SkipDir then walkNames walkFn path rest s2 else (some err2, s2)
        | (none, s2) => walkNames walkFn path rest s2

/-- Models `filepath.walk` on the root of the walk. -/
def walk {σ : Type} (path : String) (info : FileInfo) (node : Node) (walkFn : WalkFunc σ)
    (s : σ) : Option Error × σ :=
  match node with
  | .file _ _ => walkFn path (some info) none s
  | .dir _ e ch =>
    let err := e.map (fun msg => Error.PathError "open" path msg)
    match walkFn path (some info) err s with
    | (some err1, s1) => (some err1, s1)
    | (none, s1) => if err.isSome then (none, s1) else walkNames walkFn path ch s1

/-- Models `filepath.Walk`. -/
def Walk {σ : Type} (fs : FS) (root : String) (fn : WalkFunc σ) (s : σ) : Option Error × σ :=
  let (err, s1) :=
    match fs.Lstat root with
    | .error err => fn root none (some err) s
    | .ok (info, node) => walk root info node fn s
  if err = some Error.SkipDir ∨ err = some Error.SkipAll then (none, s1) else (err, s1)

/-- Models `slices.SortFunc`: the result holds the elements of `x` ordered so that
`cmp a b ≤ 0` for `a` before `b` (computed by insertion, as the library does
for short slices). -/
def SortFunc {α : Type} (x : List α) (cmp : α → α → Int) : List α :=
  x.insertionSort (fun a b => cmp a b ≤ 0)

/-! ## `net/http` -/

/-- A header map. -/
abbrev Header := List (String × String)

/-- Models `Header.Set`: the value of `key` is replaced, or added. -/
def Header.Set (h : Header) (key value : String) : Header :=
  if (h.lookup key).isSome then h.map (fun kv => if kv.1 = key then (key, value) else kv)
  else h ++ [(key, value)]

/-- Models `Header.Get`: the value of `key`, or the empty string. -/
def Header.Get (h : Header) (key : String) : String := (h.lookup key).getD ""

/-- An `http.ResponseWriter`: the header map the handler edits, the status code
once the status line is written, the headers as they were at that moment, and
the body written so far. -/
structure ResponseWriter where
  header : Header
  status : Option Nat
  sent : Header
  body : String
  deriving DecidableEq, Repr

/-- The writer a handler is called with. -/
def ResponseWriter.fresh : ResponseWriter :=
  { header := [], status := none, sent := [], body := "" }

/-- Models `w.Header().Set(key, value)`. -/
def ResponseWriter.SetHeader (w : ResponseWriter) (key value : String) : ResponseWriter :=
  { w with header := w.header.Set key value }

/-- Models `w.WriteHeader(code)`: writes the status line with the current headers,
unless it is written already. -/
def ResponseWriter.WriteHeader (w : ResponseWriter) (code : Nat) : ResponseWriter :=
  match w.status with
  | some _ => w
  | none => { w with status := some code, sent := w.header }

/-- Models `w.Write(p)`: writes the status line with 200 if it is not written yet,
then the bytes. -/
def ResponseWriter.Write (w : ResponseWriter) (p : String) : ResponseWriter :=
  let w1 := w.WriteHeader 200
  { w1 with body := w1.body ++ p }

/-- Models `fmt.Fprintln(w, s)`. -/
def Fprintln (w : ResponseWriter) (s : String) : ResponseWriter := w.Write (s ++ "\n")

/-- Models `fmt.Fprintf(w, ...)`, given the formatted text. -/
def Fprintf (w : ResponseWriter) (s : String) : ResponseWriter := w.Write s

/-- What the client receives. -/
structure Response where
  status : Nat
  header : Header
  body : String
  deriving DecidableEq, Repr

/-- The response once the handler has returned: a status line not yet written
is written with 200. -/
def ResponseWriter.result (w : ResponseWriter) : Response :=
  let w1 := w.WriteHeader 200
  { status := w1.status.getD 200, header := w1.sent, body := w1.body }

/-- A part of a multipart form that holds a file: the file name the client
submitted (`FileHeader.Filename`) and the content. -/
structure Part where
  Filename : String
  data : String
  deriving DecidableEq, Repr

/-- An `http.Request` as the handlers see it: the method, the result of
`BasicAuth()`, the parsed form (query and body fields, in the order
`FormValue` consults them), and the result of parsing the body as a multipart
form (an error message, or the file parts by field name). -/
structure Request where
  Method : String
  auth : Option (String × String)
  form : List (String × String)
  multipart : Except String (List (String × Part))

/-- Models `r.BasicAuth()`. -/
def Request.BasicAuth (r : Request) : String × String × Bool :=
  match r.auth with
  | some (user, pass) => (user, pass, true)
  | none => ("", "", false)

/-- Models `r.FormValue(key)`: the first value of the field, or the empty string. -/
def Request.FormValue (r : Request) (key : String) : String :=
  (r.form.lookup key).getD ""

/-- Models `r.FormFile(key)`: the first file part of that field and its header. -/
def Request.FormFile (r : Request) (key : String) : Except Error (String × Part) :=
  match r.multipart with
  | .error msg => .error (.New msg)
  | .ok files =>
    match files.lookup key with
    | some part => .ok (part.data, part)
    | none => .error (.New "http: no such file")

/-- An `http.HandlerFunc`, acting on the state `σ` of the server's surroundings. -/
abbrev HandlerFunc (σ : Type) := ResponseWriter → Request → σ → ResponseWriter × σ

/-- Models `io.Copy(w, f)` for an open file `f`: the content is written to the
response if it can be read. -/
def copyToResponse (w : ResponseWriter) (fs : FS) (f : File) : ResponseWriter × Option Error :=
  match fs.ReadAll f with
  | .error err => (w, some err)
  | .ok data => (if data = "" then w else w.Write data, none)

/-! ## The handlers of `main.go` -/

/-- The function `ListFiles` passes to `filepath.Walk`; `files` is the slice
the closure appends to. -/
def ListFiles.walkFn : WalkFunc (List FileInfo) :=
  fun path info err files =>
    if path = uploadDir then (none, files)
    else
      match err with
      | some e => (some e, files)
      | none => (none, files ++ info.toList)

/-- The comparison `ListFiles` passes to `slices.SortFunc`. -/
def ListFiles.cmp (a b : FileInfo) : Int :=
  if a.ModTime.After b.ModTime then -1
  else if a.ModTime.Before b.ModTime then 1
  else 0

/-- The list item `ListFiles` prints for one entry. -/
def ListFiles.item (info : FileInfo) : String :=
  "<li><a href=\"/download?filename=" ++ info.Name ++ "\">" ++ info.Name ++ "</a> ("
    ++ humanReadableSize info.Size ++ ", " ++ info.ModTime.Format ++ ")</li>"

/-- The function `ListFiles` of `main.go`. -/
def ListFiles : HandlerFunc FS := fun w r fs =>
  if r.Method ≠ "GET" then
    let w := w.WriteHeader 405
    let w := Fprintln w "Method not allowed"
    (w, fs)
  else
    let w := Fprintln w "<h1>File Vault Lite</h1>"
    let w := Fprintln w "<ul>"
    let (err, files) := Walk fs uploadDir ListFiles.walkFn []
    let files := SortFunc files ListFiles.cmp
    let w := files.foldl (fun w info => Fprintf w (ListFiles.item info)) w
    match err with
    | some e =>
      let w := w.WriteHeader 500
      let w := Fprintf w ("Error: " ++ e.String)
      (w, fs)
    | none =>
      let w := Fprintln w "</ul>"
      (w, fs)

/-- The function `BasicAuthMiddleware` of `main.go`. -/
def BasicAuthMiddleware {σ : Type} (handler : HandlerFunc σ) (username password : String) :
    HandlerFunc σ := fun w r s =>
  let (user, pass, ok) := r.BasicAuth
  if !ok || user ≠ username || pass ≠ password then
    let w := w.SetHeader "WWW-Authenticate" "Basic realm=\"Restricted\""
    let w := w.WriteHeader 401
    let w := Fprintln w "Unauthorized"
    (w, s)
  else
    handler w r s

/-- The function `UploadHandler` of `main.go`. -/
def UploadHandler : HandlerFunc FS := fun w r fs =>
  if r.Method ≠ "POST" then
    let w := w.WriteHeader 405
    let w := Fprintln w "Method not allowed"
    (w, fs)
  else
    match r.FormFile "file" with
    | .error err =>
      let w := w.WriteHeader 400
      let w := Fprintf w ("Error: " ++ err.String)
      (w, fs)
    | .ok (file, handler) =>
      let filename := r.FormValue "filename"
      let filename := if filename = "" then handler.Filename else filename
      let filepath := Join [uploadDir, filename]
      match fs.OpenFile filepath with
      | .error err =>
        let w := w.WriteHeader 500
        let w := Fprintf w ("Error: " ++ err.String)
        (w, fs)
      | .ok (f, fs) =>
        match fs.CopyTo f file with
        | (fs, some err) =>
          let w := w.WriteHeader 500
          let w := Fprintf w ("Error: " ++ err.String)
          (w, fs)
        | (fs, none) =>
          let w := w.WriteHeader 200
          let w := Fprintln w "File uploaded successfully."
          (w, fs)

/-- The function `DownloadHandler` of `main.go`. -/
def DownloadHandler : HandlerFunc FS := fun w r fs =>
  if r.Method ≠ "GET" then
    let w := w.WriteHeader 405
    let w := Fprintln w "Method not allowed"
    (w, fs)
  else
    let filename := r.FormValue "filename"
    if filename = "" then
      let w := w.WriteHeader 400
      let w := Fprintln w "Filename not provided"
      (w, fs)
    else
      let filepath := Join [uploadDir, filename]
      match fs.Open filepath with
      | .error err =>
        let w := w.WriteHeader 400
        let w := Fprintf w ("Error: " ++ err.String)
        (w, fs)
      | .ok f =>
        let w := w.SetHeader "Content-Disposition" ("attachment; filename=\"" ++ filename ++ "\"")
        let w := w.SetHeader "Content-Type" "application/octet-stream"
        match copyToResponse w fs f with
        | (w, some err) =>
          let w := w.WriteHeader 500
          let w := Fprintf w ("Error: " ++ err.String)
          (w, fs)
        | (w, none) => (w, fs)

/-- The handler `main` registers for `/upload`. -/
def uploadRoute (username password : String) : HandlerFunc FS :=
  BasicAuthMiddleware UploadHandler username password

/-- The handler `main` registers for `/download`. -/
def downloadRoute (username password : String) : HandlerFunc FS :=
  BasicAuthMiddleware DownloadHandler username password

/-- The handler `main` registers for `/`. -/
def rootRoute : HandlerFunc FS := ListFiles

/-- The response of a handler to a request, from a fresh writer. -/
def respond {σ : Type} (h : HandlerFunc σ) (r : Request) (s : σ) : Response :=
  (h ResponseWriter.fresh r s).1.result

/-- The state a handler leaves behind. -/
def effect {σ : Type} (h : HandlerFunc σ) (r : Request) (s : σ) : σ :=
  (h ResponseWriter.fresh r s).2

/-! ## Notions the properties are stated with -/

/-- A plain file name: not empty, without `/`, and neither `.` nor `..`. -/
def plainName (n : String) : Prop :=
  n ≠ "" ∧ '/' ∉ n.data ∧ n ≠ "." ∧ n ≠ ".."

instance (n : String) : Decidable (plainName n) := by
  unfold plainName
  infer_instance

/-- An element that `Clean` keeps: not `.`, and without `/`. -/
def keptElem (c : String) : Prop := c ≠ "." ∧ '/' ∉ c.data

/-- The content and modification time of a regular file, if the path names one. -/
def fileOf : Except String Node → Option (String × Time)
  | .ok (.file d m) => some (d, m)
  | _ => none

/-- The content and modification time of the regular file at an absolute path. -/
def FS.fileAt (fs : FS) (loc : List String) : Option (String × Time) :=
  fileOf (fs.root.lookup loc)

/-- The entries below a directory with the `FileInfo` each reports, in the
order of names, a directory being followed by the entries below it. -/
def Forest.entries : Forest → List FileInfo
  | .nil => []
  | .file n d m rest => (Node.file d m).info n :: rest.entries
  | .dir n m e ch rest => (Node.dir m e ch).info n :: (ch.entries ++ rest.entries)

/-- Can every directory below be read. -/
def Forest.readable : Forest → Bool
  | .nil => true
  | .file _ _ _ rest => rest.readable
  | .dir _ _ e ch rest => e.isNone && ch.readable && rest.readable

/-! ## Example states and requests -/

/-- A `GET` request with the given credentials and form fields. -/
def getRequest (auth : Option (String × String)) (form : List (String × String)) : Request :=
  { Method := "GET", auth := auth, form := form,
    multipart := .error "request Content-Type isn't multipart/form-data" }

/-- A `POST` request with a multipart body holding the given fields and file parts. -/
def postRequest (auth : Option (String × String)) (form : List (String × String))
    (files : List (String × Part)) : Request :=
  { Method := "POST", auth := auth, form := form, multipart := .ok files }

/-- A machine whose working directory holds an empty `uploads` directory. -/
def emptyVault : FS :=
  { root := .dir "uploads" ⟨0⟩ none .nil .nil, cwd := [], now := ⟨1000⟩, free := 1000 }

/-- A `POST` whose `file` part has the given submitted name and content. -/
def uploadOf (name data : String) : Request :=
  postRequest none [] [("file", { Filename := name, data := data })]

/-- A `GET` with the query `filename=name`. -/
def downloadOf (name : String) : Request :=
  getRequest none [("filename", name)]

/-- A vault holding `a.txt` with the content `hello`. -/
def vaultWithFile : FS :=
  { root := .dir "uploads" ⟨1⟩ none (.file "a.txt" "hello" ⟨2⟩ .nil) .nil,
    cwd := [], now := ⟨3⟩, free := 10 }

/-- The vault after `old.txt` was uploaded and, one second later, `new.txt`. -/
def twoUploads : FS :=
  effect UploadHandler (uploadOf "new.txt" "second")
    { effect UploadHandler (uploadOf "old.txt" "first") emptyVault with now := ⟨1000001000⟩ }

/-- A vault holding `a.txt` and a directory `sub` that cannot be read. -/
def brokenVault : FS :=
  { root := .dir "uploads" ⟨0⟩ none
      (.file "a.txt" "abc" ⟨7⟩ (.dir "sub" ⟨9⟩ (some "permission denied") .nil .nil)) .nil,
    cwd := [], now := ⟨1000⟩, free := 1000 }

/-- A vault whose `uploads` directory itself cannot be read. -/
def lockedVault : FS :=
  { root := .dir "uploads" ⟨0⟩ (some "permission denied") (.file "a.txt" "abc" ⟨7⟩ .nil) .nil,
    cwd := [], now := ⟨1000⟩, free := 1000 }

/-! ## Lemmas on decimal rendering -/

theorem digitChar_isDigit (d : Nat) : isDigit (digitChar d) = true := by
  unfold digitChar
  split <;> decide

theorem digitVal_digitChar (d : Nat) (h : d < 10) : digitVal (digitChar d) = d := by
  interval_cases d <;> decide

theorem decimalValue_snoc (cs : List Char) (c : Char) :
    decimalValue (String.mk (cs ++ [c])) = decimalValue (String.mk cs) * 10 + digitVal c := by
  simp [decimalValue, List.foldl_append]

theorem formatNatAux_spec (fuel : Nat) : ∀ n, n < fuel →
    formatNatAux fuel n ≠ [] ∧ (∀ c ∈ formatNatAux fuel n, isDigit c = true) ∧
      decimalValue (String.mk (formatNatAux fuel n)) = n := by
  induction fuel with
  | zero => intro n h; omega
  | succ fuel ih =>
    intro n h
    unfold formatNatAux
    by_cases h10 : n < 10
    · simp only [h10, if_true]
      refine ⟨by simp, ?_, ?_⟩
      · intro c hc
        simp only [List.mem_singleton] at hc
        subst hc
        exact digitChar_isDigit n
      · simp [decimalValue, digitVal_digitChar n h10]
    · simp only [h10, if_false]
      have hlt : n / 10 < fuel := by omega
      obtain ⟨_, hd, hv⟩ := ih (n / 10) hlt
      refine ⟨by simp, ?_, ?_⟩
      · intro c hc
        rcases List.mem_append.mp hc with hc | hc
        · exact hd c hc
        · simp only [List.mem_singleton] at hc
          subst hc
          exact digitChar_isDigit _
      · rw [decimalValue_snoc, hv, digitVal_digitChar _ (Nat.mod_lt _ (by decide))]
        omega

theorem formatNat_spec (n : Nat) :
    (formatNat n).data ≠ [] ∧ (∀ c ∈ (formatNat n).data, isDigit c = true) ∧
      decimalValue (formatNat n) = n :=
  formatNatAux_spec (n + 1) n (Nat.lt_succ_self n)

theorem pad2_spec (n : Nat) (h : n < 100) :
    (pad2 n).length = 2 ∧ (∀ c ∈ (pad2 n).data, isDigit c = true) ∧ decimalValue (pad2 n) = n := by
  refine ⟨rfl, ?_, ?_⟩
  · intro c hc
    simp only [pad2, List.mem_cons, List.mem_singleton, List.not_mem_nil, or_false] at hc
    rcases hc with hc | hc <;> subst hc <;> exact digitChar_isDigit _
  · simp only [pad2, decimalValue, List.foldl_cons, List.foldl_nil]
    rw [digitVal_digitChar _ (Nat.mod_lt _ (by decide)),
      digitVal_digitChar _ (Nat.mod_lt _ (by decide))]
    omega

/-! ## Lemmas on rounding -/

theorem roundToFloat64_exact (n : Nat) (h : n < 2 ^ 53) : roundToFloat64 n = n := by
  have he : excessBits 11 n = 0 := by
    unfold excessBits
    rw [if_pos h]
  simp [roundToFloat64, he, Nat.mod_one]

theorem hundredths_near (num den : Nat) (hd : 0 < den) :
    2 * (hundredths num den * den) ≤ 200 * num + den ∧
      200 * num ≤ 2 * (hundredths num den * den) + den := by
  have hdiv := Nat.div_add_mod (num * 100) den
  have hmod := Nat.mod_lt (num * 100) hd
  have hq : den * (num * 100 / den) = num * 100 / den * den := Nat.mul_comm _ _
  unfold hundredths
  simp only
  split
  · rename_i hc
    rw [Nat.add_mul]
    rcases hc with hc | ⟨hc, _⟩ <;> constructor <;> omega
  · rename_i hc
    have : ¬ den < 2 * (num * 100 % den) := fun h => hc (Or.inl h)
    constructor <;> omega

theorem hundredths_near_rat (num den : Nat) (hd : 0 < den) :
    |((hundredths num den : ℚ) / 100) - (num : ℚ) / den| ≤ 1 / 200 := by
  obtain ⟨h1, h2⟩ := hundredths_near num den hd
  have hd' : (0 : ℚ) < den := by exact_mod_cast hd
  have h1' : (2 : ℚ) * (hundredths num den * den) ≤ 200 * num + den := by exact_mod_cast h1
  have h2' : (200 : ℚ) * num ≤ 2 * (hundredths num den * den) + den := by exact_mod_cast h2
  have key : ((hundredths num den : ℚ) / 100) - (num : ℚ) / den
      = (hundredths num den * den - 100 * num) / (100 * den) := by
    field_simp
  rw [key, abs_le]
  constructor
  · rw [le_div_iff₀ (by positivity)]
    linarith
  · rw [div_le_iff₀ (by positivity)]
    linarith

/-! ## The size formatter -/

theorem specUnit_eq (b : Nat) :
    specUnit b =
      if 1024 ^ 3 ≤ b then ("GB", 1024 ^ 3)
      else if 1024 ^ 2 ≤ b then ("MB", 1024 ^ 2)
      else if 1024 ≤ b then ("KB", 1024)
      else ("B", 1) := by
  have e3 : (1024 : Nat) ^ 3 = 1073741824 := by norm_num
  have e2 : (1024 : Nat) ^ 2 = 1048576 := by norm_num
  unfold specUnit unitsDescending
  rw [e3, e2]
  by_cases h3 : 1073741824 ≤ b
  · simp [List.find?, h3]
  · by_cases h2 : 1048576 ≤ b
    · simp [List.find?, h3, h2]
    · by_cases h1 : 1024 ≤ b
      · simp [List.find?, h3, h2, h1]
      · simp [List.find?, h3, h2, h1]

theorem humanReadableSize_eq (b : Nat) :
    humanReadableSize b
      = formatFloat2 ((Float64.ofInt64 b).div (specUnit b).2) ++ " " ++ (specUnit b).1 := by
  rw [specUnit_eq]
  unfold humanReadableSize Sprintf_2f_s
  by_cases h3 : 1024 ^ 3 ≤ b
  · have h3' : (b : Int) ≥ 1024 * 1024 * 1024 := by omega
    simp only [h3, h3', if_true]
    norm_num
  · have h3' : ¬ (b : Int) ≥ 1024 * 1024 * 1024 := by omega
    by_cases h2 : 1024 ^ 2 ≤ b
    · have h2' : (b : Int) ≥ 1024 * 1024 := by omega
      simp only [h3, h3', h2, h2', if_true, if_false]
      norm_num
    · have h2' : ¬ (b : Int) ≥ 1024 * 1024 := by omega
      by_cases h1 : 1024 ≤ b
      · have h1' : (b : Int) ≥ 1024 := by omega
        simp only [h3, h3', h2, h2', h1, h1', if_true, if_false]
      · have h1' : ¬ (b : Int) ≥ 1024 := by omega
        simp only [h3, h3', h2, h2', h1, h1', if_false]
        simp [Float64.div]

theorem ofInt64_exact (b : Nat) (hb : b < 2 ^ 53) :
    Float64.ofInt64 b = { neg := false, num := b, den := 1 } := by
  simp [Float64.ofInt64, roundToFloat64_exact b hb]

theorem specUnit_pos (b : Nat) : 0 < (specUnit b).2 := by
  rw [specUnit_eq]
  split_ifs <;> norm_num

theorem specUnit_label (b : Nat) : (specUnit b).1 ∈ ["B", "KB", "MB", "GB"] := by
  rw [specUnit_eq]
  split_ifs <;> simp

theorem excessBits_le (fuel : Nat) : ∀ n, excessBits fuel n ≤ fuel := by
  induction fuel with
  | zero => intro n; simp [excessBits]
  | succ fuel ih =>
    intro n
    unfold excessBits
    split_ifs
    · omega
    · have := ih (n / 2)
      omega

theorem roundToFloat64_near (n : Nat) :
    roundToFloat64 n ≤ n + 2 ^ 10 ∧ n ≤ roundToFloat64 n + 2 ^ 10 := by
  have he := excessBits_le 11 n
  have hpow : 2 ^ excessBits 11 n ≤ 2 ^ 11 := Nat.pow_le_pow_right (by decide) he
  have hpos : 0 < 2 ^ excessBits 11 n := Nat.pow_pos (by decide)
  have hdiv := Nat.div_add_mod n (2 ^ excessBits 11 n)
  have hmod := Nat.mod_lt n hpos
  have hq : 2 ^ excessBits 11 n * (n / 2 ^ excessBits 11 n)
      = n / 2 ^ excessBits 11 n * 2 ^ excessBits 11 n := Nat.mul_comm _ _
  unfold roundToFloat64
  simp only
  generalize 2 ^ excessBits 11 n = P at *
  generalize n / P = q at *
  generalize n % P = r at *
  split_ifs with hc
  · rw [Nat.add_mul]
    rcases hc with hc | ⟨hc, _⟩ <;> constructor <;> omega
  · have : ¬ P < 2 * r := fun h => hc (Or.inl h)
    constructor <;> omega

theorem humanReadableSize_digits (b : Nat) :
    ∃ ip fp : String,
      humanReadableSize b = ip ++ "." ++ fp ++ " " ++ (specUnit b).1 ∧
      ip.data ≠ [] ∧ (∀ c ∈ ip.data, isDigit c = true) ∧
      fp.length = 2 ∧ (∀ c ∈ fp.data, isDigit c = true) ∧
      (decimalValue ip : ℚ) + (decimalValue fp : ℚ) / 100
        = (hundredths (roundToFloat64 b) (specUnit b).2 : ℚ) / 100 := by
  set U := (specUnit b).2 with hU
  set h := hundredths (roundToFloat64 b) U with hh
  obtain ⟨hi1, hi2, hi3⟩ := formatNat_spec (h / 100)
  obtain ⟨hf1, hf2, hf3⟩ := pad2_spec (h % 100) (Nat.mod_lt _ (by decide))
  refine ⟨formatNat (h / 100), pad2 (h % 100), ?_, hi1, hi2, hf1, hf2, ?_⟩
  · rw [humanReadableSize_eq]
    have hn : ¬ ((b : Int) < 0) := by omega
    simp [formatFloat2, Float64.div, Float64.ofInt64, hh, hU, hn]
  · rw [hi3, hf3]
    have := Nat.div_add_mod h 100
    have hq : ((100 * (h / 100) + h % 100 : Nat) : ℚ) = (h : ℚ) := by rw [this]
    push_cast at hq
    rw [← hq]
    ring

theorem float_quotient_near (b : Nat) :
    |(roundToFloat64 b : ℚ) / (specUnit b).2 - (b : ℚ) / (specUnit b).2| ≤ 1 / 2 ^ 20 := by
  by_cases hb : b < 2 ^ 53
  · rw [roundToFloat64_exact b hb]
    simp
  · have hU : (specUnit b).2 = 1024 ^ 3 := by
      rw [specUnit_eq]
      have : 1024 ^ 3 ≤ b := by
        have : (1024 : Nat) ^ 3 ≤ 2 ^ 53 := by norm_num
        omega
      rw [if_pos this]
    obtain ⟨h1, h2⟩ := roundToFloat64_near b
    have h1' : (roundToFloat64 b : ℚ) ≤ b + 2 ^ 10 := by exact_mod_cast h1
    have h2' : (b : ℚ) ≤ roundToFloat64 b + 2 ^ 10 := by exact_mod_cast h2
    rw [hU, ← sub_div, abs_le]
    push_cast
    constructor
    · rw [le_div_iff₀ (by norm_num)]
      norm_num
      linarith
    · rw [div_le_iff₀ (by norm_num)]
      norm_num
      linarith

/-- C4: for every byte count `b`, `humanReadableSize b` ends with a space and
the label of the unit that is GB (size `1024^3`) if `b ≥ 1024^3`, MB
(`1024^2`) if `1024^2 ≤ b < 1024^3`, KB (`1024`) if `1024 ≤ b < 1024^2` and B
(`1`) if `b < 1024`, the thresholds being exact; this unit is the one the
specification selects, the largest in which the value is at least 1. The number
before the label is `float64(b) / size` rendered by `%.2f`: it is written with
an integer part and two decimals and lies within half a hundredth, and the
`2^-20` that the conversion of a `b ≥ 2^53` to a double can cost, of
`b / size`. -/
theorem humanReadableSize_unit (b : Nat) :
    specUnit b =
      (if 1024 ^ 3 ≤ b then ("GB", 1024 ^ 3)
       else if 1024 ^ 2 ≤ b then ("MB", 1024 ^ 2)
       else if 1024 ≤ b then ("KB", 1024)
       else ("B", 1)) ∧
    humanReadableSize b
      = formatFloat2 ((Float64.ofInt64 b).div (specUnit b).2) ++ " " ++ (specUnit b).1 ∧
    (∃ ip fp : String,
      humanReadableSize b = ip ++ "." ++ fp ++ " " ++ (specUnit b).1 ∧
      |((decimalValue ip : ℚ) + (decimalValue fp : ℚ) / 100) - (b : ℚ) / (specUnit b).2|
        ≤ 1 / 200 + 1 / 2 ^ 20) := by
  refine ⟨specUnit_eq b, humanReadableSize_eq b, ?_⟩
  obtain ⟨ip, fp, hs, _, _, _, _, hv⟩ := humanReadableSize_digits b
  refine ⟨ip, fp, hs, ?_⟩
  rw [hv]
  have h1 := hundredths_near_rat (roundToFloat64 b) (specUnit b).2 (specUnit_pos b)
  have h2 := float_quotient_near b
  have h3 := abs_sub_le ((hundredths (roundToFloat64 b) (specUnit b).2 : ℚ) / 100)
    ((roundToFloat64 b : ℚ) / (specUnit b).2) ((b : ℚ) / (specUnit b).2)
  linarith

/-- C5: for every byte count `b` below `2^53`, `humanReadableSize b` is a
non-empty run of decimal digits, a point, exactly two decimal digits, one space
and the unit label; the number so written is within half a hundredth of
`b / size`, that is `b / size` rounded to the nearest hundredth. In particular
`humanReadableSize 1024 = "1.00 KB"` and `humanReadableSize 512 = "512.00 B"`. -/
theorem humanReadableSize_two_decimals (b : Nat) (hb : b < 2 ^ 53) :
    (∃ ip fp : String,
      humanReadableSize b = ip ++ "." ++ fp ++ " " ++ (specUnit b).1 ∧
      (specUnit b).1 ∈ ["B", "KB", "MB", "GB"] ∧
      ip.data ≠ [] ∧ (∀ c ∈ ip.data, isDigit c = true) ∧
      fp.length = 2 ∧ (∀ c ∈ fp.data, isDigit c = true) ∧
      |((decimalValue ip : ℚ) + (decimalValue fp : ℚ) / 100) - (b : ℚ) / (specUnit b).2|
        ≤ 1 / 200) ∧
    humanReadableSize 1024 = "1.00 KB" ∧ humanReadableSize 512 = "512.00 B" := by
  refine ⟨?_, by decide, by decide⟩
  obtain ⟨ip, fp, hs, hi1, hi2, hf1, hf2, hv⟩ := humanReadableSize_digits b
  refine ⟨ip, fp, hs, specUnit_label b, hi1, hi2, hf1, hf2, ?_⟩
  rw [hv, roundToFloat64_exact b hb]
  exact hundredths_near_rat b (specUnit b).2 (specUnit_pos b)

theorem humanReadableSize_two_decimals_witness :
    1536 < 2 ^ 53 ∧
    (∃ ip fp : String,
      humanReadableSize (1536 : Nat) = ip ++ "." ++ fp ++ " " ++ (specUnit 1536).1 ∧
      (specUnit 1536).1 ∈ ["B", "KB", "MB", "GB"] ∧
      ip.data ≠ [] ∧ (∀ c ∈ ip.data, isDigit c = true) ∧
      fp.length = 2 ∧ (∀ c ∈ fp.data, isDigit c = true) ∧
      |((decimalValue ip : ℚ) + (decimalValue fp : ℚ) / 100)
          - ((1536 : Nat) : ℚ) / (specUnit 1536).2| ≤ 1 / 200) ∧
    humanReadableSize 1024 = "1.00 KB" ∧ humanReadableSize 512 = "512.00 B" ∧
    humanReadableSize 1536 = "1.50 KB" :=
  ⟨by decide, (humanReadableSize_two_decimals 1536 (by decide)).1,
    (humanReadableSize_two_decimals 1536 (by decide)).2.1,
    (humanReadableSize_two_decimals 1536 (by decide)).2.2, by decide⟩

/-! ## The authentication gate -/

/-- C1: for every inner handler and configured pair, a request without Basic
credentials, with another username, or with another password is answered with
status 401, the header `WWW-Authenticate` whose value starts with `Basic`, and
the body line `Unauthorized`; the answer is the same response in the three
cases, whatever the handler and the request, and the state is left as it was:
the inner handler is not invoked. -/
theorem BasicAuthMiddleware_rejects {σ : Type} (handler : HandlerFunc σ)
    (username password : String) (r : Request) (s : σ)
    (h : r.auth = none ∨
      (∃ user pass, r.auth = some (user, pass) ∧ user ≠ username) ∨
      (∃ user pass, r.auth = some (user, pass) ∧ pass ≠ password)) :
    respond (BasicAuthMiddleware handler username password) r s
      = { status := 401, header := [("WWW-Authenticate", "Basic realm=\"Restricted\"")],
          body := "Unauthorized\n" } ∧
    (∃ rest, Header.Get (respond (BasicAuthMiddleware handler username password) r s).header
      "WWW-Authenticate" = "Basic" ++ rest) ∧
    effect (BasicAuthMiddleware handler username password) r s = s := by
  have key : BasicAuthMiddleware handler username password ResponseWriter.fresh r s
      = (Fprintln ((ResponseWriter.fresh.SetHeader "WWW-Authenticate"
          "Basic realm=\"Restricted\"").WriteHeader 401) "Unauthorized", s) := by
    unfold BasicAuthMiddleware Request.BasicAuth
    rcases h with h | ⟨user, pass, h, hne⟩ | ⟨user, pass, h, hne⟩
    · simp [h]
    · simp [h, hne]
    · simp [h, hne]
  have hresp : respond (BasicAuthMiddleware handler username password) r s
      = { status := 401, header := [("WWW-Authenticate", "Basic realm=\"Restricted\"")],
          body := "Unauthorized\n" } := by
    have e : (Fprintln ((ResponseWriter.fresh.SetHeader "WWW-Authenticate"
          "Basic realm=\"Restricted\"").WriteHeader 401) "Unauthorized").result
        = { status := 401, header := [("WWW-Authenticate", "Basic realm=\"Restricted\"")],
            body := "Unauthorized\n" } := by decide
    unfold respond
    rw [key]
    exact e
  refine ⟨hresp, ?_, ?_⟩
  · rw [hresp]
    exact ⟨" realm=\"Restricted\"", by decide⟩
  · unfold effect
    rw [key]

theorem BasicAuthMiddleware_rejects_witness :
    ((getRequest (some ("admin", "wrong")) [("filename", "a.txt")]).auth = none ∨
      (∃ user pass, (getRequest (some ("admin", "wrong")) [("filename", "a.txt")]).auth
        = some (user, pass) ∧ user ≠ "admin") ∨
      (∃ user pass, (getRequest (some ("admin", "wrong")) [("filename", "a.txt")]).auth
        = some (user, pass) ∧ pass ≠ "secret")) ∧
    respond (BasicAuthMiddleware DownloadHandler "admin" "secret")
        (getRequest (some ("admin", "wrong")) [("filename", "a.txt")]) vaultWithFile
      = { status := 401, header := [("WWW-Authenticate", "Basic realm=\"Restricted\"")],
          body := "Unauthorized\n" } ∧
    (∃ rest, Header.Get (respond (BasicAuthMiddleware DownloadHandler "admin" "secret")
        (getRequest (some ("admin", "wrong")) [("filename", "a.txt")]) vaultWithFile).header
      "WWW-Authenticate" = "Basic" ++ rest) ∧
    effect (BasicAuthMiddleware DownloadHandler "admin" "secret")
        (getRequest (some ("admin", "wrong")) [("filename", "a.txt")]) vaultWithFile
      = vaultWithFile :=
  ⟨Or.inr (Or.inr ⟨"admin", "wrong", rfl, by decide⟩),
    BasicAuthMiddleware_rejects DownloadHandler "admin" "secret" _ _
      (Or.inr (Or.inr ⟨"admin", "wrong", rfl, by decide⟩))⟩

/-- C2: for every inner handler, configured pair (the pair of two empty strings
included) and request whose Basic credentials are present and equal to the
pair, the wrapped handler yields what the inner handler yields on the same
writer, request and state: the same response and the same effect. -/
theorem BasicAuthMiddleware_delegates {σ : Type} (handler : HandlerFunc σ)
    (username password : String) (w : ResponseWriter) (r : Request) (s : σ)
    (h : r.auth = some (username, password)) :
    BasicAuthMiddleware handler username password w r s = handler w r s ∧
    respond (BasicAuthMiddleware handler username password) r s = respond handler r s ∧
    effect (BasicAuthMiddleware handler username password) r s = effect handler r s := by
  have key : ∀ w, BasicAuthMiddleware handler username password w r s = handler w r s := by
    intro w
    unfold BasicAuthMiddleware Request.BasicAuth
    simp [h]
  exact ⟨key w, by unfold respond; rw [key], by unfold effect; rw [key]⟩

theorem BasicAuthMiddleware_delegates_witness :
    (getRequest (some ("", "")) [("filename", "a.txt")]).auth = some ("", "") ∧
    BasicAuthMiddleware DownloadHandler "" "" ResponseWriter.fresh
        (getRequest (some ("", "")) [("filename", "a.txt")]) vaultWithFile
      = DownloadHandler ResponseWriter.fresh
        (getRequest (some ("", "")) [("filename", "a.txt")]) vaultWithFile ∧
    respond (BasicAuthMiddleware DownloadHandler "" "")
        (getRequest (some ("", "")) [("filename", "a.txt")]) vaultWithFile
      = respond DownloadHandler (getRequest (some ("", "")) [("filename", "a.txt")])
        vaultWithFile ∧
    effect (BasicAuthMiddleware DownloadHandler "" "")
        (getRequest (some ("", "")) [("filename", "a.txt")]) vaultWithFile
      = effect DownloadHandler (getRequest (some ("", "")) [("filename", "a.txt")])
        vaultWithFile :=
  ⟨rfl, BasicAuthMiddleware_delegates DownloadHandler "" "" ResponseWriter.fresh _ _ rfl⟩

/-! ## The method guard -/

theorem UploadHandler_not_post (w : ResponseWriter) (r : Request) (fs : FS)
    (h : r.Method ≠ "POST") :
    UploadHandler w r fs = (Fprintln (w.WriteHeader 405) "Method not allowed", fs) := by
  unfold UploadHandler
  simp [h]

theorem DownloadHandler_not_get (w : ResponseWriter) (r : Request) (fs : FS)
    (h : r.Method ≠ "GET") :
    DownloadHandler w r fs = (Fprintln (w.WriteHeader 405) "Method not allowed", fs) := by
  unfold DownloadHandler
  simp [h]

theorem ListFiles_not_get (w : ResponseWriter) (r : Request) (fs : FS)
    (h : r.Method ≠ "GET") :
    ListFiles w r fs = (Fprintln (w.WriteHeader 405) "Method not allowed", fs) := by
  unfold ListFiles
  simp [h]

/-- C9: `UploadHandler` answers every request whose method is not `POST`, and
`DownloadHandler` and `ListFiles` answer every request whose method is not
`GET`, with status 405 and the body line `Method not allowed`, whatever the
request's other fields and whatever the storage, which is left as it was; so do
the routes `/upload` and `/download` for such requests that carry the
configured credentials. -/
theorem method_guard (rU rD : Request) (fs : FS) (username password : String)
    (hU : rU.Method ≠ "POST") (hD : rD.Method ≠ "GET") :
    (respond UploadHandler rU fs = { status := 405, header := [], body := "Method not allowed\n" }
      ∧ effect UploadHandler rU fs = fs) ∧
    (respond DownloadHandler rD fs
        = { status := 405, header := [], body := "Method not allowed\n" }
      ∧ effect DownloadHandler rD fs = fs) ∧
    (respond ListFiles rD fs = { status := 405, header := [], body := "Method not allowed\n" }
      ∧ effect ListFiles rD fs = fs) ∧
    (rU.auth = some (username, password) →
      respond (uploadRoute username password) rU fs
          = { status := 405, header := [], body := "Method not allowed\n" }
        ∧ effect (uploadRoute username password) rU fs = fs) ∧
    (rD.auth = some (username, password) →
      respond (downloadRoute username password) rD fs
          = { status := 405, header := [], body := "Method not allowed\n" }
        ∧ effect (downloadRoute username password) rD fs = fs) := by
  have e : (Fprintln (ResponseWriter.fresh.WriteHeader 405) "Method not allowed").result
      = { status := 405, header := [], body := "Method not allowed\n" } := by decide
  have hu : respond UploadHandler rU fs
        = { status := 405, header := [], body := "Method not allowed\n" }
      ∧ effect UploadHandler rU fs = fs := by
    unfold respond effect
    rw [UploadHandler_not_post _ _ _ hU]
    exact ⟨e, rfl⟩
  have hd : respond DownloadHandler rD fs
        = { status := 405, header := [], body := "Method not allowed\n" }
      ∧ effect DownloadHandler rD fs = fs := by
    unfold respond effect
    rw [DownloadHandler_not_get _ _ _ hD]
    exact ⟨e, rfl⟩
  have hl : respond ListFiles rD fs
        = { status := 405, header := [], body := "Method not allowed\n" }
      ∧ effect ListFiles rD fs = fs := by
    unfold respond effect
    rw [ListFiles_not_get _ _ _ hD]
    exact ⟨e, rfl⟩
  refine ⟨hu, hd, hl, ?_, ?_⟩
  · intro ha
    have hk : ∀ w, uploadRoute username password w rU fs = UploadHandler w rU fs := by
      intro w
      unfold uploadRoute BasicAuthMiddleware Request.BasicAuth
      simp [ha]
    unfold respond effect
    rw [hk]
    exact hu
  · intro ha
    have hk : ∀ w, downloadRoute username password w rD fs = DownloadHandler w rD fs := by
      intro w
      unfold downloadRoute BasicAuthMiddleware Request.BasicAuth
      simp [ha]
    unfold respond effect
    rw [hk]
    exact hd

theorem method_guard_witness :
    (getRequest (some ("admin", "secret")) []).Method ≠ "POST" ∧
    (postRequest (some ("admin", "secret")) [("filename", "a.txt")] []).Method ≠ "GET" ∧
    respond (uploadRoute "admin" "secret") (getRequest (some ("admin", "secret")) [])
        vaultWithFile
      = { status := 405, header := [], body := "Method not allowed\n" } ∧
    respond (downloadRoute "admin" "secret")
        (postRequest (some ("admin", "secret")) [("filename", "a.txt")] []) vaultWithFile
      = { status := 405, header := [], body := "Method not allowed\n" } :=
  have h := method_guard (getRequest (some ("admin", "secret")) [])
    (postRequest (some ("admin", "secret")) [("filename", "a.txt")] [])
    vaultWithFile "admin" "secret" (by decide) (by decide)
  ⟨by decide, by decide, (h.2.2.2.1 rfl).1, (h.2.2.2.2 rfl).1⟩

/-! ## Download: requests that are turned away -/

/-- C8: for every storage state, a `GET` to `DownloadHandler` whose `filename`
parameter is absent or empty is answered with status 400 and the body line
`Filename not provided`; a `GET` whose `filename` names a path that cannot be
opened is answered with status 400 and the body `Error: ` followed by the
error's text (for a file that does not exist: `open uploads/missing.txt: no
such file or directory`). In both cases the response has no header (so no
`Content-Disposition`), no file content, and the storage is left as it was. -/
theorem DownloadHandler_bad_request (r : Request) (fs : FS) (hm : r.Method = "GET") :
    (r.FormValue "filename" = "" →
      respond DownloadHandler r fs
          = { status := 400, header := [], body := "Filename not provided\n" }
        ∧ effect DownloadHandler r fs = fs) ∧
    (∀ err, r.FormValue "filename" ≠ "" →
      fs.Open (Join [uploadDir, r.FormValue "filename"]) = .error err →
      respond DownloadHandler r fs
          = { status := 400, header := [], body := "Error: " ++ err.String }
        ∧ (respond DownloadHandler r fs).header.lookup "Content-Disposition" = none
        ∧ effect DownloadHandler r fs = fs) ∧
    (r.FormValue "filename" = "missing.txt" →
      fs.root.lookup (fs.resolve "uploads/missing.txt") = .error ENOENT →
      respond DownloadHandler r fs
          = { status := 400, header := [],
              body := "Error: open uploads/missing.txt: no such file or directory" }
        ∧ effect DownloadHandler r fs = fs) := by
  have e1 : (Fprintln (ResponseWriter.fresh.WriteHeader 400) "Filename not provided").result
      = { status := 400, header := [], body := "Filename not provided\n" } := by decide
  have e2 : ∀ s : String, (Fprintf (ResponseWriter.fresh.WriteHeader 400) s).result
      = { status := 400, header := [], body := s } := by
    intro s
    simp [Fprintf, ResponseWriter.Write, ResponseWriter.WriteHeader, ResponseWriter.result,
      ResponseWriter.fresh]
  have open_err : ∀ err, r.FormValue "filename" ≠ "" →
      fs.Open (Join [uploadDir, r.FormValue "filename"]) = .error err →
      DownloadHandler ResponseWriter.fresh r fs
        = (Fprintf (ResponseWriter.fresh.WriteHeader 400) ("Error: " ++ err.String), fs) := by
    intro err hne hopen
    unfold DownloadHandler
    simp [hm, hne, hopen]
  refine ⟨?_, ?_, ?_⟩
  · intro hempty
    have : DownloadHandler ResponseWriter.fresh r fs
        = (Fprintln (ResponseWriter.fresh.WriteHeader 400) "Filename not provided", fs) := by
      unfold DownloadHandler
      simp [hm, hempty]
    unfold respond effect
    rw [this]
    exact ⟨e1, rfl⟩
  · intro err hne hopen
    unfold respond effect
    rw [open_err err hne hopen]
    exact ⟨e2 _, by rw [e2]; rfl, rfl⟩
  · intro hname hmissing
    have hne : r.FormValue "filename" ≠ "" := by rw [hname]; decide
    have hjoin : Join [uploadDir, "missing.txt"] = "uploads/missing.txt" := by decide
    have hopen : fs.Open (Join [uploadDir, r.FormValue "filename"])
        = .error (.PathError "open" "uploads/missing.txt" ENOENT) := by
      rw [hname, hjoin]
      unfold FS.Open
      rw [hmissing]
    unfold respond effect
    rw [open_err _ hne hopen]
    exact ⟨e2 _, rfl⟩

theorem DownloadHandler_bad_request_witness :
    (downloadOf "missing.txt").Method = "GET" ∧
    (getRequest none []).FormValue "filename" = "" ∧
    respond DownloadHandler (getRequest none []) vaultWithFile
      = { status := 400, header := [], body := "Filename not provided\n" } ∧
    (downloadOf "missing.txt").FormValue "filename" = "missing.txt" ∧
    vaultWithFile.root.lookup (vaultWithFile.resolve "uploads/missing.txt") = .error ENOENT ∧
    respond DownloadHandler (downloadOf "missing.txt") vaultWithFile
      = { status := 400, header := [],
          body := "Error: open uploads/missing.txt: no such file or directory" } ∧
    effect DownloadHandler (downloadOf "missing.txt") vaultWithFile = vaultWithFile :=
  ⟨rfl, rfl,
    ((DownloadHandler_bad_request (getRequest none []) vaultWithFile rfl).1 rfl).1,
    rfl, rfl,
    (DownloadHandler_bad_request (downloadOf "missing.txt") vaultWithFile rfl).2.2 rfl rfl⟩

/-! ## Lemmas on the directory tree -/

theorem Forest.lookup_of_not_has (f : Forest) (c : String) (cs : List String)
    (h : f.has c = false) : f.lookup (c :: cs) = .error ENOENT := by
  induction f with
  | nil => rfl
  | file n d m rest ih =>
    simp only [Forest.has, Bool.or_eq_false_iff, decide_eq_false_iff_not] at h
    simp [Forest.lookup, h.1, ih h.2]
  | dir n m e ch rest _ ih =>
    simp only [Forest.has, Bool.or_eq_false_iff, decide_eq_false_iff_not] at h
    simp [Forest.lookup, h.1, ih h.2]

theorem fileOf_lookup_nil (f : Forest) : fileOf (f.lookup []) = none := by
  cases f <;> rfl

theorem Forest.create_lookup (now : Time) (f : Forest) :
    ∀ (p : List String) (f1 : Forest), f.create now p = .ok f1 →
      f1.lookup p = .ok (.file "" now) ∧
      ∀ q, q ≠ p → fileOf (f1.lookup q) = fileOf (f.lookup q) := by
  induction f with
  | nil =>
    intro p f1 h
    match p, h with
    | [c], h =>
      simp only [Forest.create, Except.ok.injEq] at h
      subst h
      refine ⟨by simp [Forest.lookup], ?_⟩
      intro q hq
      match q, hq with
      | [], _ => rfl
      | c' :: cs', hq =>
        by_cases hc : c = c'
        · subst hc
          have : cs' ≠ [] := fun h => hq (by rw [h])
          simp [Forest.lookup, this, fileOf]
        · simp [Forest.lookup, hc, fileOf]
  | file n d m rest ih =>
    intro p f1 h
    match p, h with
    | c :: cs, h =>
      unfold Forest.create at h
      by_cases hn : n = c
      · subst hn
        by_cases hcs : cs = []
        · subst hcs
          simp only [if_true, Except.ok.injEq] at h
          subst h
          refine ⟨by simp [Forest.lookup], ?_⟩
          intro q hq
          match q, hq with
          | [], _ => rfl
          | c' :: cs', hq =>
            by_cases hc : n = c'
            · subst hc
              have : cs' ≠ [] := fun h => hq (by rw [h])
              simp [Forest.lookup, this]
            · simp [Forest.lookup, hc]
        · simp [hcs] at h
      · simp only [hn, if_false] at h
        by_cases hins : cs = [] ∧ nameLt c.data n.data = true ∧ rest.has c = false
        · simp only [hins, and_self, if_true, Except.ok.injEq] at h
          subst h
          obtain ⟨hcs, _, hhas⟩ := hins
          subst hcs
          refine ⟨by simp [Forest.lookup], ?_⟩
          intro q hq
          match q, hq with
          | [], _ => rfl
          | c' :: cs', hq =>
            by_cases hc : c = c'
            · subst hc
              have : cs' ≠ [] := fun h => hq (by rw [h])
              simp [Forest.lookup, this, hn, Forest.lookup_of_not_has rest c cs' hhas, fileOf]
            · simp [Forest.lookup, hc]
        · rw [if_neg hins] at h
          cases hr : rest.create now (c :: cs) with
          | error e => simp [hr, Except.map] at h
          | ok rest1 =>
            simp only [hr, Except.map, Except.ok.injEq] at h
            subst h
            obtain ⟨ih1, ih2⟩ := ih (c :: cs) rest1 hr
            refine ⟨by simp [Forest.lookup, hn, ih1], ?_⟩
            intro q hq
            match q, hq with
            | [], _ => rfl
            | c' :: cs', hq =>
              by_cases hc : n = c'
              · simp [Forest.lookup, hc]
              · simp [Forest.lookup, hc, ih2 (c' :: cs') hq]
  | dir n m e ch rest ihc ihr =>
    intro p f1 h
    match p, h with
    | c :: cs, h =>
      unfold Forest.create at h
      by_cases hn : n = c
      · subst hn
        simp only [if_true] at h
        match cs, h with
        | c1 :: cs1, h =>
          cases hr : ch.create now (c1 :: cs1) with
          | error e => simp [hr, Except.map] at h
          | ok ch1 =>
            simp only [hr, Except.map, Except.ok.injEq] at h
            subst h
            obtain ⟨ih1, ih2⟩ := ihc (c1 :: cs1) ch1 hr
            refine ⟨by simp [Forest.lookup, ih1], ?_⟩
            intro q hq
            match q, hq with
            | [], _ => rfl
            | c' :: cs', hq =>
              by_cases hc : n = c'
              · subst hc
                by_cases hcs' : cs' = []
                · subst hcs'
                  simp [Forest.lookup, fileOf]
                · have hq' : cs' ≠ c1 :: cs1 := fun h => hq (by rw [h])
                  simp [Forest.lookup, hcs', ih2 cs' hq']
              · simp [Forest.lookup, hc]
      · simp only [hn, if_false] at h
        by_cases hins : cs = [] ∧ nameLt c.data n.data = true ∧ rest.has c = false
        · simp only [hins, and_self, if_true, Except.ok.injEq] at h
          subst h
          obtain ⟨hcs, _, hhas⟩ := hins
          subst hcs
          refine ⟨by simp [Forest.lookup], ?_⟩
          intro q hq
          match q, hq with
          | [], _ => rfl
          | c' :: cs', hq =>
            by_cases hc : c = c'
            · subst hc
              have : cs' ≠ [] := fun h => hq (by rw [h])
              simp [Forest.lookup, this, hn, Forest.lookup_of_not_has rest c cs' hhas, fileOf]
            · simp [Forest.lookup, hc]
        · rw [if_neg hins] at h
          cases hr : rest.create now (c :: cs) with
          | error e => simp [hr, Except.map] at h
          | ok rest1 =>
            simp only [hr, Except.map, Except.ok.injEq] at h
            subst h
            obtain ⟨ih1, ih2⟩ := ihr (c :: cs) rest1 hr
            refine ⟨by simp [Forest.lookup, hn, ih1], ?_⟩
            intro q hq
            match q, hq with
            | [], _ => rfl
            | c' :: cs', hq =>
              by_cases hc : n = c'
              · simp [Forest.lookup, hc]
              · simp [Forest.lookup, hc, ih2 (c' :: cs') hq]

theorem Forest.append_lookup (now : Time) (data : String) (f : Forest) :
    ∀ (p : List String),
      (∀ d m, f.lookup p = .ok (.file d m) →
        (f.append now data p).lookup p = .ok (.file (d ++ data) now)) ∧
      ∀ q, q ≠ p → fileOf ((f.append now data p).lookup q) = fileOf (f.lookup q) := by
  induction f with
  | nil =>
    intro p
    match p with
    | [] => exact ⟨fun d m h => by simp [Forest.lookup] at h, fun q _ => rfl⟩
    | c :: cs => exact ⟨fun d m h => by simp [Forest.lookup] at h, fun q _ => rfl⟩
  | file n d0 m0 rest ih =>
    intro p
    match p with
    | [] => exact ⟨fun d m h => by simp [Forest.lookup] at h, fun q _ => rfl⟩
    | c :: cs =>
      by_cases hn : n = c
      · subst hn
        by_cases hcs : cs = []
        · subst hcs
          refine ⟨fun d m h => ?_, fun q hq => ?_⟩
          · simp only [Forest.lookup, if_true, Except.ok.injEq, Node.file.injEq] at h
            simp [Forest.append, Forest.lookup, h.1]
          · match q, hq with
            | [], _ => rw [fileOf_lookup_nil, fileOf_lookup_nil]
            | c' :: cs', hq =>
              by_cases hc : n = c'
              · subst hc
                have : cs' ≠ [] := fun h => hq (by rw [h])
                simp [Forest.append, Forest.lookup, this]
              · simp [Forest.append, Forest.lookup, hc]
        · exact ⟨fun d m h => by simp [Forest.lookup, hcs] at h,
            fun q _ => by simp [Forest.append, hcs]⟩
      · obtain ⟨ih1, ih2⟩ := ih (c :: cs)
        refine ⟨fun d m h => ?_, fun q hq => ?_⟩
        · simp only [Forest.lookup, hn, if_false] at h
          simp [Forest.append, Forest.lookup, hn, ih1 d m h]
        · match q, hq with
          | [], _ => rw [fileOf_lookup_nil, fileOf_lookup_nil]
          | c' :: cs', hq =>
            by_cases hc : n = c'
            · subst hc
              simp [Forest.append, Forest.lookup, hn]
            · simp [Forest.append, Forest.lookup, hn, hc, ih2 (c' :: cs') hq]
  | dir n m0 e ch rest ihc ihr =>
    intro p
    match p with
    | [] => exact ⟨fun d m h => by simp [Forest.lookup] at h, fun q _ => rfl⟩
    | c :: cs =>
      by_cases hn : n = c
      · subst hn
        obtain ⟨ih1, ih2⟩ := ihc cs
        refine ⟨fun d m h => ?_, fun q hq => ?_⟩
        · by_cases hcs : cs = []
          · simp [Forest.lookup, hcs] at h
          · simp only [Forest.lookup, if_true, hcs, if_false] at h
            simp [Forest.append, Forest.lookup, hcs, ih1 d m h]
        · match q, hq with
          | [], _ => rw [fileOf_lookup_nil, fileOf_lookup_nil]
          | c' :: cs', hq =>
            by_cases hc : n = c'
            · subst hc
              by_cases hcs' : cs' = []
              · subst hcs'
                simp [Forest.append, Forest.lookup, fileOf]
              · have hq' : cs' ≠ cs := fun h => hq (by rw [h])
                simp [Forest.append, Forest.lookup, hcs', ih2 cs' hq']
            · simp [Forest.append, Forest.lookup, hc]
      · obtain ⟨ih1, ih2⟩ := ihr (c :: cs)
        refine ⟨fun d m h => ?_, fun q hq => ?_⟩
        · simp only [Forest.lookup, hn, if_false] at h
          simp [Forest.append, Forest.lookup, hn, ih1 d m h]
        · match q, hq with
          | [], _ => rw [fileOf_lookup_nil, fileOf_lookup_nil]
          | c' :: cs', hq =>
            by_cases hc : n = c'
            · subst hc
              simp [Forest.append, Forest.lookup, hn]
            · simp [Forest.append, Forest.lookup, hn, hc, ih2 (c' :: cs') hq]

/-! ## Lemmas on the response writer -/

theorem result_WriteHeader_Fprintf (code : Nat) (s : String) :
    (Fprintf (ResponseWriter.fresh.WriteHeader code) s).result
      = { status := code, header := [], body := s } := by
  simp [Fprintf, ResponseWriter.Write, ResponseWriter.WriteHeader, ResponseWriter.result,
    ResponseWriter.fresh]

theorem result_WriteHeader_Fprintln (code : Nat) (s : String) :
    (Fprintln (ResponseWriter.fresh.WriteHeader code) s).result
      = { status := code, header := [], body := s ++ "\n" } := by
  simp [Fprintln, ResponseWriter.Write, ResponseWriter.WriteHeader, ResponseWriter.result,
    ResponseWriter.fresh]

/-! ## Upload -/

theorem UploadHandler_ok (r : Request) (fs : FS) (part : Part)
    (hpart : r.FormFile "file" = .ok (part.data, part))
    (hok : (respond UploadHandler r fs).status = 200) :
    ∃ root1,
      fs.root.create fs.now (fs.resolve (Join [uploadDir,
        if r.FormValue "filename" = "" then part.Filename else r.FormValue "filename"]))
        = .ok root1 ∧
      respond UploadHandler r fs
        = { status := 200, header := [], body := "File uploaded successfully.\n" } ∧
      (effect UploadHandler r fs).root = root1.append fs.now part.data (fs.resolve (Join [uploadDir,
        if r.FormValue "filename" = "" then part.Filename else r.FormValue "filename"])) ∧
      (effect UploadHandler r fs).cwd = fs.cwd ∧
      (effect UploadHandler r fs).now = fs.now := by
  unfold respond effect at *
  unfold UploadHandler at *
  by_cases hm : r.Method = "POST"
  · simp only [hm, ne_eq, not_true_eq_false, if_false, hpart] at hok ⊢
    generalize (if r.FormValue "filename" = "" then part.Filename else r.FormValue "filename")
      = name at hok ⊢
    unfold FS.OpenFile at hok ⊢
    cases hc : fs.root.create fs.now (fs.resolve (Join [uploadDir, name])) with
    | error e =>
      simp only [hc, result_WriteHeader_Fprintf] at hok
      exact absurd hok (by decide)
    | ok root1 =>
      simp only [hc] at hok ⊢
      unfold FS.CopyTo at hok ⊢
      split_ifs at hok ⊢ with hfree
      · exact ⟨root1, rfl, result_WriteHeader_Fprintln _ _, rfl, rfl, rfl⟩
      · simp only [result_WriteHeader_Fprintf] at hok
        exact absurd hok (by decide)
  · simp only [hm, ne_eq, not_false_eq_true, if_true, result_WriteHeader_Fprintln] at hok
    exact absurd hok (by decide)

theorem upload_fileAt (r : Request) (fs : FS) (part : Part)
    (hpart : r.FormFile "file" = .ok (part.data, part))
    (hok : (respond UploadHandler r fs).status = 200) :
    respond UploadHandler r fs
      = { status := 200, header := [], body := "File uploaded successfully.\n" } ∧
    (effect UploadHandler r fs).root.lookup (fs.resolve (Join [uploadDir,
        if r.FormValue "filename" = "" then part.Filename else r.FormValue "filename"]))
      = .ok (.file part.data fs.now) ∧
    (∀ q, q ≠ fs.resolve (Join [uploadDir,
        if r.FormValue "filename" = "" then part.Filename else r.FormValue "filename"]) →
      (effect UploadHandler r fs).fileAt q = fs.fileAt q) ∧
    (effect UploadHandler r fs).cwd = fs.cwd := by
  obtain ⟨root1, hc, hresp, hroot, hcwd, _⟩ := UploadHandler_ok r fs part hpart hok
  obtain ⟨hc1, hc2⟩ := Forest.create_lookup fs.now fs.root _ root1 hc
  obtain ⟨ha1, ha2⟩ := Forest.append_lookup fs.now part.data root1 (fs.resolve (Join [uploadDir,
        if r.FormValue "filename" = "" then part.Filename else r.FormValue "filename"]))
  refine ⟨hresp, ?_, ?_, hcwd⟩
  · rw [hroot, ha1 "" fs.now hc1]
    simp
  · intro q hq
    unfold FS.fileAt
    rw [hroot, ha2 q hq, hc2 q hq]

/-- C10: for every `POST` to `UploadHandler` with a `file` part that succeeds
(status 200), the response is status 200 with the body line
`File uploaded successfully.`; the name used is the value of the form field
`filename` when it is not empty and the part's submitted file name otherwise;
after the request the path `uploadDir` joined with that name is a regular file
whose content is exactly the part's bytes; and every other regular file is as
it was before (the same content and modification time, and no other file is
created or removed). -/
theorem UploadHandler_stores (r : Request) (fs : FS) (part : Part)
    (hpart : r.FormFile "file" = .ok (part.data, part))
    (hok : (respond UploadHandler r fs).status = 200) :
    respond UploadHandler r fs
      = { status := 200, header := [], body := "File uploaded successfully.\n" } ∧
    (r.FormValue "filename" ≠ "" →
      (effect UploadHandler r fs).fileAt (fs.resolve (Join [uploadDir, r.FormValue "filename"]))
        = some (part.data, fs.now) ∧
      ∀ q, q ≠ fs.resolve (Join [uploadDir, r.FormValue "filename"]) →
        (effect UploadHandler r fs).fileAt q = fs.fileAt q) ∧
    (r.FormValue "filename" = "" →
      (effect UploadHandler r fs).fileAt (fs.resolve (Join [uploadDir, part.Filename]))
        = some (part.data, fs.now) ∧
      ∀ q, q ≠ fs.resolve (Join [uploadDir, part.Filename]) →
        (effect UploadHandler r fs).fileAt q = fs.fileAt q) := by
  obtain ⟨hresp, hfile, hframe, _⟩ := upload_fileAt r fs part hpart hok
  refine ⟨hresp, ?_, ?_⟩
  · intro hne
    simp only [hne, if_false] at hfile hframe
    exact ⟨by unfold FS.fileAt; rw [hfile]; rfl, hframe⟩
  · intro he
    simp only [he, if_true] at hfile hframe
    exact ⟨by unfold FS.fileAt; rw [hfile]; rfl, hframe⟩

theorem UploadHandler_stores_witness :
    (postRequest none [("filename", "b.txt")] [("file", { Filename := "a.txt", data := "v2" })]
      ).FormFile "file" = .ok ("v2", { Filename := "a.txt", data := "v2" }) ∧
    (respond UploadHandler
      (postRequest none [("filename", "b.txt")] [("file", { Filename := "a.txt", data := "v2" })])
      vaultWithFile).status = 200 ∧
    (effect UploadHandler
      (postRequest none [("filename", "b.txt")] [("file", { Filename := "a.txt", data := "v2" })])
      vaultWithFile).fileAt ["uploads", "b.txt"] = some ("v2", ⟨3⟩) ∧
    (effect UploadHandler
      (postRequest none [("filename", "b.txt")] [("file", { Filename := "a.txt", data := "v2" })])
      vaultWithFile).fileAt ["uploads", "a.txt"] = some ("hello", ⟨2⟩) ∧
    (uploadOf "a.txt" "v2").FormFile "file" = .ok ("v2", { Filename := "a.txt", data := "v2" }) ∧
    (respond UploadHandler (uploadOf "a.txt" "v2") vaultWithFile).status = 200 ∧
    (effect UploadHandler (uploadOf "a.txt" "v2") vaultWithFile).fileAt ["uploads", "a.txt"]
      = some ("v2", ⟨3⟩) :=
  have h1 := UploadHandler_stores
    (postRequest none [("filename", "b.txt")] [("file", { Filename := "a.txt", data := "v2" })])
    vaultWithFile { Filename := "a.txt", data := "v2" } rfl (by decide)
  have h2 := UploadHandler_stores (uploadOf "a.txt" "v2") vaultWithFile
    { Filename := "a.txt", data := "v2" } rfl (by decide)
  ⟨rfl, by decide, (h1.2.1 (by decide)).1,
    ((h1.2.1 (by decide)).2 ["uploads", "a.txt"] (by decide)).trans (by decide),
    rfl, by decide, (h2.2.2 rfl).1⟩

/-! ## Download after upload -/

theorem DownloadHandler_serves (r : Request) (fs : FS) (n b : String) (m : Time)
    (hm : r.Method = "GET") (hname : r.FormValue "filename" = n) (hn : n ≠ "")
    (hfile : fs.root.lookup (fs.resolve (Join [uploadDir, n])) = .ok (.file b m)) :
    respond DownloadHandler r fs
      = { status := 200,
          header := [("Content-Disposition", "attachment; filename=\"" ++ n ++ "\""),
            ("Content-Type", "application/octet-stream")],
          body := b } ∧
    effect DownloadHandler r fs = fs := by
  unfold respond effect DownloadHandler
  simp only [hm, ne_eq, not_true_eq_false, if_false, hname, hn]
  unfold FS.Open
  simp only [hfile]
  unfold copyToResponse FS.ReadAll
  simp only [hfile]
  by_cases hb : b = ""
  · subst hb
    simp [ResponseWriter.SetHeader, ResponseWriter.result, ResponseWriter.WriteHeader,
      ResponseWriter.fresh, Header.Set]
  · simp [hb, ResponseWriter.SetHeader, ResponseWriter.result, ResponseWriter.WriteHeader,
      ResponseWriter.fresh, Header.Set, ResponseWriter.Write]

/-! ## Paths of plain names -/

theorem splitSlash_noSlash (l : List Char) (h : '/' ∉ l) : splitSlash l = [l] := by
  induction l with
  | nil => rfl
  | cons c cs ih =>
    have hc : c ≠ '/' := fun e => h (by simp [e])
    have hcs : '/' ∉ cs := fun e => h (List.mem_cons_of_mem _ e)
    simp [splitSlash, ih hcs, hc]

theorem pathElems_uploads (n : String) (h : '/' ∉ n.data) :
    pathElems ("./uploads/" ++ n) = [".", "uploads", n] ∧
    pathElems ("uploads/" ++ n) = ["uploads", n] := by
  have e := splitSlash_noSlash n.data h
  constructor
  · unfold pathElems
    rw [String.data_append]
    simp [splitSlash, e]
  · unfold pathElems
    rw [String.data_append]
    simp [splitSlash, e]

theorem Join_plain (n : String) (h : plainName n) :
    Join [uploadDir, n] = "uploads/" ++ n := by
  obtain ⟨h0, hs, h1, h2⟩ := h
  have hj : "/".intercalate [uploadDir, n] = "./uploads/" ++ n := by
    simp [String.intercalate, String.intercalate.go, uploadDir]
  have hu : uploadDir ≠ "" := by decide
  unfold Join
  simp only [List.filter, hu, h0, ne_eq, not_false_eq_true, decide_True, hj]
  unfold Clean
  have hne : "./uploads/" ++ n ≠ "" := by
    intro e
    have := congrArg String.length e
    simp at this
    exact absurd this.1 (by decide)
  rw [if_neg hne, (pathElems_uploads n hs).1]
  have hd : ("./uploads/" ++ n).data.head? = some '.' := by
    rw [String.data_append]
    rfl
  have s1 : cleanStep false [] "." = [] := by decide
  have s2 : cleanStep false [] "uploads" = ["uploads"] := by decide
  have s3 : cleanStep false ["uploads"] n = [n, "uploads"] := by
    simp [cleanStep, h0, h1, h2]
  have hr : decide (some '.' = some '/') = false := by decide
  simp only [hd, hr, List.foldl, s1, s2, s3]
  simp [String.intercalate, String.intercalate.go]
  intro e
  have := congrArg String.length e
  simp at this
  exact absurd this.1 (by decide)

theorem resolve_plain (fs : FS) (n : String) (h : plainName n) :
    fs.resolve (Join [uploadDir, n]) = fs.cwd ++ ["uploads", n] := by
  rw [Join_plain n h]
  obtain ⟨h0, hs, h1, h2⟩ := h
  unfold FS.resolve
  have hd : ("uploads/" ++ n).data.head? = some 'u' := by
    rw [String.data_append]
    rfl
  have hr : ¬ (some 'u' = some '/') := by decide
  rw [(pathElems_uploads n hs).2, hd, if_neg hr]
  have s2 : resolveStep fs.cwd "uploads" = fs.cwd ++ ["uploads"] := by
    simp [resolveStep]
  have s3 : resolveStep (fs.cwd ++ ["uploads"]) n = fs.cwd ++ ["uploads"] ++ [n] := by
    simp [resolveStep, h0, h1, h2]
  simp only [List.foldl, s2, s3]
  simp

/-- C3: round trip with overwrite. For every storage state (whether or not the
file exists already), plain file name `n` and body `b`: when a `POST` to
`UploadHandler` that stores the part `b` under `n` succeeds, the regular file
`uploads/n` of the working directory holds exactly `b`, and a following `GET`
to `DownloadHandler` with `filename=n` is answered with status 200, the headers
`Content-Disposition: attachment; filename="n"` and
`Content-Type: application/octet-stream`, and a body equal to `b`, nothing of
an earlier content; the download leaves the storage as it is. -/
theorem upload_download_roundtrip (fs : FS) (rU rD : Request) (part : Part) (n : String)
    (hn : plainName n)
    (hpart : rU.FormFile "file" = .ok (part.data, part))
    (hname : (if rU.FormValue "filename" = "" then part.Filename
      else rU.FormValue "filename") = n)
    (hok : (respond UploadHandler rU fs).status = 200)
    (hget : rD.Method = "GET") (hq : rD.FormValue "filename" = n) :
    (effect UploadHandler rU fs).fileAt (fs.cwd ++ ["uploads", n]) = some (part.data, fs.now) ∧
    respond DownloadHandler rD (effect UploadHandler rU fs)
      = { status := 200,
          header := [("Content-Disposition", "attachment; filename=\"" ++ n ++ "\""),
            ("Content-Type", "application/octet-stream")],
          body := part.data } ∧
    effect DownloadHandler rD (effect UploadHandler rU fs) = effect UploadHandler rU fs := by
  obtain ⟨_, hfile, _, hcwd⟩ := upload_fileAt rU fs part hpart hok
  rw [hname] at hfile
  have hres : (effect UploadHandler rU fs).resolve (Join [uploadDir, n])
      = fs.resolve (Join [uploadDir, n]) := by
    unfold FS.resolve
    rw [hcwd]
  have hfile' := hfile
  rw [← hres] at hfile'
  obtain ⟨h1, h2⟩ := DownloadHandler_serves rD (effect UploadHandler rU fs) n part.data fs.now
    hget hq hn.1 hfile'
  refine ⟨?_, h1, h2⟩
  rw [resolve_plain fs n hn] at hfile
  unfold FS.fileAt
  rw [hfile]
  rfl

theorem upload_download_roundtrip_witness :
    (plainName "a.txt" ∧
      (respond UploadHandler (uploadOf "a.txt" "v2")
        (effect UploadHandler (uploadOf "a.txt" "v1") emptyVault)).status = 200 ∧
      respond DownloadHandler (downloadOf "a.txt")
          (effect UploadHandler (uploadOf "a.txt" "v2")
            (effect UploadHandler (uploadOf "a.txt" "v1") emptyVault))
        = { status := 200,
            header := [("Content-Disposition", "attachment; filename=\"a.txt\""),
              ("Content-Type", "application/octet-stream")],
            body := "v2" }) ∧
    (respond UploadHandler (uploadOf "a.txt" "hello") emptyVault).status = 200 ∧
    respond DownloadHandler (downloadOf "a.txt")
        (effect UploadHandler (uploadOf "a.txt" "hello") emptyVault)
      = { status := 200,
          header := [("Content-Disposition", "attachment; filename=\"a.txt\""),
            ("Content-Type", "application/octet-stream")],
          body := "hello" } :=
  ⟨⟨by unfold plainName; decide, by decide,
      (upload_download_roundtrip (effect UploadHandler (uploadOf "a.txt" "v1") emptyVault)
        (uploadOf "a.txt" "v2") (downloadOf "a.txt") { Filename := "a.txt", data := "v2" } "a.txt"
        (by unfold plainName; decide) rfl (by decide) (by decide) rfl (by decide)).2.1⟩,
    by decide,
    (upload_download_roundtrip emptyVault
      (uploadOf "a.txt" "hello") (downloadOf "a.txt") { Filename := "a.txt", data := "hello" }
      "a.txt" (by unfold plainName; decide) rfl (by decide) (by decide) rfl (by decide)).2.1⟩


/-! ## Listing -/

theorem foldl_append_string (l : List String) : ∀ a : String,
    l.foldl (fun r s => r ++ s) a = a ++ l.foldl (fun r s => r ++ s) "" := by
  induction l with
  | nil => intro a; simp
  | cons x xs ih =>
    intro a
    simp only [List.foldl_cons]
    rw [ih (a ++ x), ih ("" ++ x)]
    simp [String.append_assoc]

theorem foldl_Fprintf (files : List FileInfo) : ∀ (w : ResponseWriter) (c : Nat),
    w.status = some c →
    files.foldl (fun w info => Fprintf w (ListFiles.item info)) w
      = { w with body := w.body ++ String.join (files.map ListFiles.item) } := by
  induction files with
  | nil => intro w c _; simp [String.join]
  | cons x xs ih =>
    intro w c hw
    have hx : Fprintf w (ListFiles.item x) = { w with body := w.body ++ ListFiles.item x } := by
      simp [Fprintf, ResponseWriter.Write, ResponseWriter.WriteHeader, hw]
    simp only [List.foldl_cons, hx]
    rw [ih _ c (by simpa using hw)]
    simp only [String.join, List.map_cons, List.foldl_cons, String.append_assoc]
    rw [foldl_append_string _ ("" ++ ListFiles.item x)]
    simp [String.append_assoc]

theorem cmp_le_zero (a b : FileInfo) :
    ListFiles.cmp a b ≤ 0 ↔ b.modTime.unixNano ≤ a.modTime.unixNano := by
  unfold ListFiles.cmp Time.After Time.Before FileInfo.ModTime
  by_cases h1 : a.modTime.unixNano > b.modTime.unixNano
  · simp [h1]; omega
  · by_cases h2 : a.modTime.unixNano < b.modTime.unixNano
    · simp [h1, h2]
    · simp [h1, h2]; omega

theorem SortFunc_spec (files : List FileInfo) :
    (SortFunc files ListFiles.cmp).Perm files ∧
    (SortFunc files ListFiles.cmp).Pairwise
      (fun x y => y.modTime.unixNano ≤ x.modTime.unixNano) := by
  unfold SortFunc
  refine ⟨List.perm_insertionSort _ _, ?_⟩
  haveI : IsTotal FileInfo (fun a b => ListFiles.cmp a b ≤ 0) :=
    ⟨fun a b => by simp only [cmp_le_zero]; omega⟩
  haveI : IsTrans FileInfo (fun a b => ListFiles.cmp a b ≤ 0) :=
    ⟨fun a b c h1 h2 => by simp only [cmp_le_zero] at *; omega⟩
  have hs := List.sorted_insertionSort (fun a b => ListFiles.cmp a b ≤ 0) files
  exact List.Pairwise.imp (fun h => (cmp_le_zero _ _).mp h) hs

theorem ListFiles_get (r : Request) (fs : FS) (hm : r.Method = "GET") :
    respond ListFiles r fs
      = { status := 200, header := [],
          body := "<h1>File Vault Lite</h1>\n<ul>\n"
            ++ String.join ((SortFunc (Walk fs uploadDir ListFiles.walkFn []).2
                ListFiles.cmp).map ListFiles.item)
            ++ (match (Walk fs uploadDir ListFiles.walkFn []).1 with
                | some e => "Error: " ++ e.String
                | none => "</ul>\n") } ∧
    effect ListFiles r fs = fs := by
  have hw : (Fprintln (Fprintln ResponseWriter.fresh "<h1>File Vault Lite</h1>") "<ul>")
      = { header := [], status := some 200, sent := [],
          body := "<h1>File Vault Lite</h1>\n<ul>\n" } := by decide
  unfold respond effect ListFiles
  simp only [hm, ne_eq, not_true_eq_false, if_false, hw]
  rw [foldl_Fprintf _ _ 200 rfl]
  cases (Walk fs uploadDir ListFiles.walkFn []).1 with
  | none =>
    simp [Fprintln, ResponseWriter.Write, ResponseWriter.WriteHeader, ResponseWriter.result,
      String.append_assoc]
  | some e =>
    simp [Fprintf, ResponseWriter.Write, ResponseWriter.WriteHeader, ResponseWriter.result,
      String.append_assoc]

/-! ## `Join` never yields the name of the storage location as `main.go` spells it -/

theorem splitSlash_ne_nil (l : List Char) : splitSlash l ≠ [] := by
  cases l with
  | nil => simp [splitSlash]
  | cons c cs =>
    unfold splitSlash
    split <;> split_ifs <;> simp

theorem splitSlash_mem (l : List Char) : ∀ w ∈ splitSlash l, '/' ∉ w := by
  induction l with
  | nil =>
    intro w hw
    simp only [splitSlash, List.mem_singleton] at hw
    subst hw
    simp
  | cons c cs ih =>
    intro w hw
    unfold splitSlash at hw
    split at hw
    · rename_i h
      exact absurd h (splitSlash_ne_nil cs)
    · rename_i w1 ws h
      rw [h] at ih
      split_ifs at hw with hc
      · simp only [List.mem_cons] at hw
        rcases hw with hw | hw | hw
        · subst hw; simp
        · subst hw; exact ih w (by simp)
        · exact ih w (by simp [hw])
      · simp only [List.mem_cons] at hw
        rcases hw with hw | hw
        · subst hw
          have := ih w1 (by simp)
          simp only [List.mem_cons, not_or]
          exact ⟨fun e => hc e.symm, this⟩
        · exact ih w (by simp [hw])

theorem cleanStep_kept (rooted : Bool) (out : List String) (c : String)
    (hout : ∀ x ∈ out, keptElem x) (hc : '/' ∉ c.data) :
    ∀ x ∈ cleanStep rooted out c, keptElem x := by
  have hdd : keptElem ".." := by unfold keptElem; decide
  unfold cleanStep
  by_cases h1 : c = "" ∨ c = "."
  · rw [if_pos h1]
    exact hout
  · rw [if_neg h1]
    by_cases h2 : c = ".."
    · rw [if_pos h2]
      cases out with
      | nil =>
        cases rooted
        · intro x hx
          simp only [Bool.false_eq_true, if_false, List.mem_singleton] at hx
          subst hx
          exact hdd
        · intro x hx
          simp at hx
      | cons top below =>
        by_cases h3 : top = ".."
        · simp only [h3, if_true]
          intro x hx
          simp only [List.mem_cons] at hx
          rcases hx with hx | hx | hx
          · subst hx; exact hdd
          · subst hx; exact hdd
          · exact hout x (List.mem_cons_of_mem _ hx)
        · simp only [h3, if_false]
          intro x hx
          exact hout x (List.mem_cons_of_mem _ hx)
    · rw [if_neg h2]
      intro x hx
      simp only [List.mem_cons] at hx
      rcases hx with hx | hx
      · subst hx
        exact ⟨fun e => h1 (Or.inr e), hc⟩
      · exact hout x hx

theorem foldl_cleanStep_kept (rooted : Bool) (cs : List String) :
    ∀ out : List String, (∀ x ∈ out, keptElem x) → (∀ c ∈ cs, '/' ∉ c.data) →
      ∀ x ∈ cs.foldl (cleanStep rooted) out, keptElem x := by
  induction cs with
  | nil => intro out hout _; simpa using hout
  | cons c cs ih =>
    intro out hout hcs
    simp only [List.foldl_cons]
    exact ih _ (cleanStep_kept rooted out c hout (hcs c (by simp)))
      (fun c' hc' => hcs c' (List.mem_cons_of_mem _ hc'))

theorem intercalate_go_data (l : List String) : ∀ acc : String,
    ∃ tail : List Char, (String.intercalate.go acc "/" l).data = acc.data ++ tail ∧
      (tail = [] ∨ tail.head? = some '/') := by
  induction l with
  | nil => intro acc; exact ⟨[], by simp [String.intercalate.go], Or.inl rfl⟩
  | cons a as ih =>
    intro acc
    obtain ⟨tail, h1, _⟩ := ih (acc ++ "/" ++ a)
    refine ⟨'/' :: (a.data ++ tail), ?_, Or.inr rfl⟩
    simp only [String.intercalate.go, h1, String.data_append]
    simp

theorem intercalate_ne_uploadDir (l : List String) (h : ∀ x ∈ l, keptElem x) :
    "/".intercalate l ≠ uploadDir := by
  cases l with
  | nil => decide
  | cons c cs =>
    intro e
    obtain ⟨tail, h1, h2⟩ := intercalate_go_data cs c
    have hc := h c (by simp)
    have e' : c.data ++ tail = uploadDir.data := by
      rw [← h1]
      exact congrArg String.data e
    have hu : uploadDir.data = ['.', '/', 'u', 'p', 'l', 'o', 'a', 'd', 's'] := by decide
    rw [hu] at e'
    obtain ⟨hdot, hslash⟩ := hc
    match hcd : c.data, e' with
    | [], e' =>
      simp only [List.nil_append] at e'
      rcases h2 with h2 | h2
      · rw [h2] at e'; simp at e'
      · rw [e'] at h2; simp at h2
    | [x], e' =>
      simp only [List.singleton_append, List.cons.injEq] at e'
      apply hdot
      have : c.data = ".".data := by rw [hcd, e'.1]
      exact String.ext this
    | x :: y :: rest, e' =>
      simp only [List.cons_append, List.cons.injEq] at e'
      apply hslash
      rw [hcd, e'.2.1]
      simp

theorem cleaned_ne_uploadDir (rooted : Bool) (out : List String)
    (h : ∀ x ∈ out, keptElem x) :
    (if rooted = true then "/" else "") ++ "/".intercalate out ≠ uploadDir := by
  cases rooted
  · simp only [Bool.false_eq_true, if_false, String.empty_append]
    exact intercalate_ne_uploadDir out h
  · simp only [if_true]
    intro e
    have e' := congrArg String.data e
    rw [String.data_append] at e'
    have hu : uploadDir.data = ['.', '/', 'u', 'p', 'l', 'o', 'a', 'd', 's'] := by decide
    rw [hu] at e'
    have hs : "/".data = ['/'] := rfl
    rw [hs] at e'
    simp at e'

theorem Clean_ne_uploadDir (path : String) : Clean path ≠ uploadDir := by
  unfold Clean
  by_cases h1 : path = ""
  · rw [if_pos h1]
    decide
  · rw [if_neg h1]
    have hk : ∀ x ∈ ((pathElems path).foldl
        (cleanStep (decide (path.data.head? = some '/'))) []).reverse, keptElem x := by
      intro x hx
      rw [List.mem_reverse] at hx
      refine foldl_cleanStep_kept _ _ [] (by simp) ?_ x hx
      intro c hc
      unfold pathElems at hc
      rw [List.mem_map] at hc
      obtain ⟨w, hw, rfl⟩ := hc
      exact splitSlash_mem _ w hw
    have hne := cleaned_ne_uploadDir (decide (path.data.head? = some '/')) _ hk
    simp only []
    generalize (if decide (path.data.head? = some '/') = true then "/" else "")
      ++ "/".intercalate ((pathElems path).foldl
        (cleanStep (decide (path.data.head? = some '/'))) []).reverse = s at hne
    by_cases hs : s = ""
    · rw [if_pos hs]
      decide
    · rw [if_neg hs]
      exact hne

theorem Join_ne_uploadDir (elem : List String) : Join elem ≠ uploadDir := by
  unfold Join
  split
  · decide
  · exact Clean_ne_uploadDir _

/-! ## What the walk of `ListFiles` collects -/

theorem walkFn_entry (path : String) (info : FileInfo) (files : List FileInfo)
    (h : path ≠ uploadDir) :
    ListFiles.walkFn path (some info) none files = (none, files ++ [info]) := by
  simp [ListFiles.walkFn, h]

theorem walkNames_entries (f : Forest) : ∀ (path : String) (files : List FileInfo),
    f.readable = true →
    walkNames ListFiles.walkFn path f files = (none, files ++ f.entries) := by
  induction f with
  | nil => intro path files _; simp [walkNames, Forest.entries]
  | file n d m rest ih =>
    intro path files hr
    simp only [Forest.readable] at hr
    simp only [walkNames, walkFn_entry _ _ _ (Join_ne_uploadDir [path, n]), ih path _ hr,
      Forest.entries]
    simp
  | dir n m e ch rest ihc ihr =>
    intro path files hr
    simp only [Forest.readable, Bool.and_eq_true, Option.isNone_iff_eq_none] at hr
    obtain ⟨⟨he, hch⟩, hrest⟩ := hr
    subst he
    simp only [walkNames, Option.map_none', walkFn_entry _ _ _ (Join_ne_uploadDir [path, n]),
      Option.isSome_none, Bool.false_eq_true, if_false, ihc _ _ hch, ihr path _ hrest,
      Forest.entries]
    simp

theorem Walk_entries (fs : FS) (m : Time) (ch : Forest)
    (hdir : fs.root.lookup (fs.resolve uploadDir) = .ok (.dir m none ch))
    (hr : ch.readable = true) :
    Walk fs uploadDir ListFiles.walkFn [] = (none, ch.entries) := by
  unfold Walk FS.Lstat
  simp only [hdir, walk, Option.map_none']
  have h0 : ∀ info, ListFiles.walkFn uploadDir (some info) none [] = (none, []) := by
    intro info
    simp [ListFiles.walkFn]
  simp only [h0, Option.isSome_none, Bool.false_eq_true, if_false, walkNames_entries ch _ _ hr]
  simp

/-- C6: for every storage state, the body `ListFiles` writes on a `GET` is the
heading, the opening `<ul>`, one `<li>` item for each member of a list `items`,
and the closing text, where `items` is a permutation of the entries the walk of
the storage location enumerated (each entry once, none lost, none twice) and is
in non-increasing order of modification time: an item rendered before another
is not modified earlier. When the storage location is a directory and every
directory below it can be read, the enumerated entries are all the entries
below it. -/
theorem ListFiles_order (r : Request) (fs : FS) (hm : r.Method = "GET") :
    ∃ items : List FileInfo,
      (respond ListFiles r fs).body
        = "<h1>File Vault Lite</h1>\n<ul>\n" ++ String.join (items.map ListFiles.item)
          ++ (match (Walk fs uploadDir ListFiles.walkFn []).1 with
              | some e => "Error: " ++ e.String
              | none => "</ul>\n") ∧
      items.Perm (Walk fs uploadDir ListFiles.walkFn []).2 ∧
      items.Pairwise (fun x y => y.modTime.unixNano ≤ x.modTime.unixNano) ∧
      (∀ m ch, fs.root.lookup (fs.resolve uploadDir) = .ok (.dir m none ch) →
        ch.readable = true → items.Perm ch.entries) := by
  obtain ⟨hp, hs⟩ := SortFunc_spec (Walk fs uploadDir ListFiles.walkFn []).2
  refine ⟨SortFunc (Walk fs uploadDir ListFiles.walkFn []).2 ListFiles.cmp, ?_, hp, hs, ?_⟩
  · rw [(ListFiles_get r fs hm).1]
  · intro m ch hdir hr
    have hw := Walk_entries fs m ch hdir hr
    rw [hw] at hp ⊢
    exact hp

set_option maxRecDepth 20000

theorem ListFiles_order_witness :
    (getRequest none []).Method = "GET" ∧
    (∃ items : List FileInfo,
      (respond ListFiles (getRequest none []) twoUploads).body
        = "<h1>File Vault Lite</h1>\n<ul>\n" ++ String.join (items.map ListFiles.item)
          ++ (match (Walk twoUploads uploadDir ListFiles.walkFn []).1 with
              | some e => "Error: " ++ e.String
              | none => "</ul>\n") ∧
      items.Perm (Walk twoUploads uploadDir ListFiles.walkFn []).2 ∧
      items.Pairwise (fun x y => y.modTime.unixNano ≤ x.modTime.unixNano) ∧
      (∀ m ch, twoUploads.root.lookup (twoUploads.resolve uploadDir) = .ok (.dir m none ch) →
        ch.readable = true → items.Perm ch.entries)) ∧
    (respond ListFiles (getRequest none []) twoUploads).body
      = "<h1>File Vault Lite</h1>\n<ul>\n"
        ++ "<li><a href=\"/download?filename=new.txt\">new.txt</a> (6.00 B, 1970-01-01 00:00:01)</li>"
        ++ "<li><a href=\"/download?filename=old.txt\">old.txt</a> (5.00 B, 1970-01-01 00:00:00)</li>"
        ++ "</ul>\n" :=
  ⟨rfl, ListFiles_order (getRequest none []) twoUploads rfl, by decide⟩

/-- C7 (what the code does): when the enumeration fails at an unreadable
directory below the storage location, `ListFiles` has written the heading
before it calls `WriteHeader(500)`, so the status line already stands at 200:
the response has status 200, and its body is the heading, the items of the
entries enumerated before the failure, and `Error: ` with the error's text,
without a closing `</ul>`. When the storage location itself cannot be read, the
walk function returns `nil` for it before it looks at the error: the response
is the complete empty list with status 200 and no error text. -/
theorem ListFiles_failure_status :
    (Walk brokenVault uploadDir ListFiles.walkFn []).1
      = some (.PathError "open" "uploads/sub" "permission denied") ∧
    respond ListFiles (getRequest none []) brokenVault
      = { status := 200, header := [],
          body := "<h1>File Vault Lite</h1>\n<ul>\n"
            ++ "<li><a href=\"/download?filename=a.txt\">a.txt</a> (3.00 B, 1970-01-01 00:00:00)</li>"
            ++ "Error: open uploads/sub: permission denied" } ∧
    respond ListFiles (getRequest none []) lockedVault
      = { status := 200, header := [], body := "<h1>File Vault Lite</h1>\n<ul>\n</ul>\n" } := by
  decide

end FileVault
